import Mathlib

/-!
Verification of the tic-tac-toe decision engine and turn controller
(`tic_tac_toe.py`): board model, win/draw detection, the alpha-beta
minimax move search under three difficulty tiers, and the click/turn
state machine.  Presentation-only details (animation timestamps, sounds,
geometry) are omitted; every game-logic branch is embedded faithfully.
-/

set_option linter.unusedVariables false

/-- A player's mark: `'X'` or `'O'` in the source. -/
inductive Mark
  | X
  | O
deriving DecidableEq, Repr

/-- One board cell: `None`, `'X'` or `'O'` in the source. -/
abbrev Cell := Option Mark

/-- `Board.cells`: an ordered list of 9 optional marks. -/
abbrev Cells := List Cell

/-- Result domain of `Board.winner()[0]` / `AI._check_winner`:
`'X'`/`'O'`, the string `'Draw'`, or Python `None` (game in progress). -/
inductive WRes
  | win (m : Mark)
  | draw
  | nores
deriving DecidableEq, Repr

/-- The fixed 8 win combinations, in source order:
rows, then columns, then diagonals. -/
def WIN_COMBINATIONS : List (Nat × Nat × Nat) :=
  [(0, 1, 2), (3, 4, 5), (6, 7, 8),
   (0, 3, 6), (1, 4, 7), (2, 5, 8),
   (0, 4, 8), (2, 4, 6)]

/-- `Board.place(idx, mark)`: succeeds iff `0 <= idx < 9` and the cell is
empty; on success sets the cell and returns `True`, else changes nothing
and returns `False`.  (The animation timestamp written on success is
presentation-only and not modelled.)  The index is an `Int` because a
Python caller may pass any integer. -/
def Board.place (cells : Cells) (idx : Int) (mark : Mark) : Cells × Bool :=
  if 0 ≤ idx ∧ idx < 9 ∧ cells.getD idx.toNat none = none then
    (cells.set idx.toNat (some mark), true)
  else
    (cells, false)

/-- The scan inside `Board.winner()`: first combination (in list order)
whose three cells are non-empty and identical, together with its mark. -/
def winnerScan (cells : Cells) : List (Nat × Nat × Nat) → Option (Mark × (Nat × Nat × Nat))
  | [] => none
  | (a, b, c) :: rest =>
    match cells.getD a none with
    | some m =>
      if cells.getD b none = some m ∧ cells.getD c none = some m then
        some (m, (a, b, c))
      else
        winnerScan cells rest
    | none => winnerScan cells rest

/-- `Board.winner()`: scans `WIN_COMBINATIONS`; returns the first uniform
triple's mark and the triple, else `Draw` when all cells are occupied,
else in-progress. -/
def Board.winner (cells : Cells) : WRes × Option (Nat × Nat × Nat) :=
  match winnerScan cells WIN_COMBINATIONS with
  | some (m, t) => (WRes.win m, some t)
  | none =>
    if cells.all Option.isSome then (WRes.draw, none)
    else (WRes.nores, none)

/-- The scan inside `AI._check_winner`: identical to the scan in
`Board.winner()` except that it does not report the triple. -/
def checkScan (board : Cells) : List (Nat × Nat × Nat) → Option Mark
  | [] => none
  | (a, b, c) :: rest =>
    match board.getD a none with
    | some m =>
      if board.getD b none = some m ∧ board.getD c none = some m then
        some m
      else
        checkScan board rest
    | none => checkScan board rest

/-- `AI._check_winner(board)`: the winning mark, `'Draw'` on a full board,
else `None`. -/
def AI._check_winner (board : Cells) : WRes :=
  match checkScan board WIN_COMBINATIONS with
  | some m => WRes.win m
  | none =>
    if board.all Option.isSome then WRes.draw
    else WRes.nores

/-- The maximizing `for i in range(9)` loop of `AI._minimax`, value
semantics: the recursive search on a child board is the parameter `f`
(applied to the board with the hypothetical mark placed, and the current
alpha/beta).  Mirrors: skip occupied cells; `if val > best_val` update;
`alpha = max(alpha, best_val)`; `break` once `beta <= alpha`. -/
def abMaxLoop (f : Cells → Int → Int → Int) (mark : Mark) (board : Cells) :
    List Nat → Int → Int → Int → Option Nat → Int × Option Nat
  | [], _, _, bv, bm => (bv, bm)
  | i :: rest, alpha, beta, bv, bm =>
    if board.getD i none = none then
      let val := f (board.set i (some mark)) alpha beta
      let bv' := if bv < val then val else bv
      let bm' := if bv < val then some i else bm
      let alpha' := max alpha bv'
      if beta ≤ alpha' then (bv', bm')
      else abMaxLoop f mark board rest alpha' beta bv' bm'
    else
      abMaxLoop f mark board rest alpha beta bv bm

/-- The minimizing loop of `AI._minimax`, symmetric to `abMaxLoop`:
`if val < best_val` update; `beta = min(beta, best_val)`; `break` once
`beta <= alpha`. -/
def abMinLoop (f : Cells → Int → Int → Int) (mark : Mark) (board : Cells) :
    List Nat → Int → Int → Int → Option Nat → Int × Option Nat
  | [], _, _, bv, bm => (bv, bm)
  | i :: rest, alpha, beta, bv, bm =>
    if board.getD i none = none then
      let val := f (board.set i (some mark)) alpha beta
      let bv' := if val < bv then val else bv
      let bm' := if val < bv then some i else bm
      let beta' := min beta bv'
      if beta' ≤ alpha then (bv', bm')
      else abMinLoop f mark board rest alpha beta' bv' bm'
    else
      abMinLoop f mark board rest alpha beta bv bm

/-- `AI._minimax`, with an explicit recursion budget `fuel` (the source
recursion terminates because `depth` grows by 1 per ply and the search
stops at `depth >= max_depth`; callers pass `fuel = maxd - depth`).
Terminal checks happen before the fuel is consulted, exactly as the
source checks `_check_winner` and the depth cutoff before looping. -/
def minimaxAux (ai hu : Mark) (fuel : Nat) (board : Cells) (is_max : Bool)
    (alpha beta : Int) (depth maxd : Nat) : Int × Option Nat :=
  let w := AI._check_winner board
  if w = WRes.win ai then ((100 : Int) - (depth : Int), none)
  else if w = WRes.win hu then ((-100 : Int) + (depth : Int), none)
  else if w = WRes.draw then ((0 : Int), none)
  else if maxd ≤ depth then ((0 : Int), none)
  else
    match fuel with
    | 0 => ((0 : Int), none)
    | fuel' + 1 =>
      if is_max then
        abMaxLoop (fun b a bb => (minimaxAux ai hu fuel' b false a bb (depth + 1) maxd).1)
          ai board (List.range 9) alpha beta (-9999) none
      else
        abMinLoop (fun b a bb => (minimaxAux ai hu fuel' b true a bb (depth + 1) maxd).1)
          hu board (List.range 9) alpha beta (9999) none

/-- `AI._minimax(board, is_max, alpha, beta, depth, max_depth)`.  The fuel
`maxd - depth` suffices: each ply increases `depth` by one and recursion
only happens while `depth < max_depth`. -/
def AI._minimax (ai hu : Mark) (board : Cells) (is_max : Bool)
    (alpha beta : Int) (depth maxd : Nat) : Int × Option Nat :=
  minimaxAux ai hu (maxd - depth) board is_max alpha beta depth maxd

/-- The three difficulty strings `'Easy'`, `'Medium'`, `'Impossible'`. -/
inductive Difficulty
  | Easy
  | Medium
  | Impossible
deriving DecidableEq, Repr

/-- `AI.best_move(cells)`.  The two uses of the external random source are
injected: `coin` is the outcome of `random.random() < 0.35` in the Medium
tier, and `rchoice` stands for `random.choice` (it is only ever applied
to the non-empty `available` list; only the fact that it yields *some*
index matters for the claims about it). -/
def AI.best_move (ai hu : Mark) (difficulty : Difficulty) (coin : Bool)
    (rchoice : List Nat → Nat) (cells : Cells) : Option Nat :=
  let available := (List.range 9).filter (fun i => decide (cells.getD i none = none))
  if available.isEmpty then none
  else
    match difficulty with
    | Difficulty.Easy => some (rchoice available)
    | Difficulty.Medium =>
      if coin then some (rchoice available)
      else
        match (AI._minimax ai hu cells true (-9999) 9999 0 4).2 with
        | some m => some m
        | none => some (rchoice available)
    | Difficulty.Impossible => (AI._minimax ai hu cells true (-9999) 9999 0 9).2

/-- The empty board: `[None] * 9`. -/
def emptyBoard : Cells := List.replicate 9 none

/-- The board of spec scenario 2: `[X,X,None,None,O,None,None,None,None]`. -/
def scenario2Board : Cells :=
  [some Mark.X, some Mark.X, none, none, some Mark.O, none, none, none, none]

/-- A board where X has already completed the top row while four cells
remain empty. -/
def wonBoard : Cells :=
  [some Mark.X, some Mark.X, some Mark.X, some Mark.O, some Mark.O, none, none, none, none]

/-! ## State-passing search (models the in-place mutation of `_minimax`) -/

/-- The maximizing loop of `AI._minimax` with the board mutation made
explicit: `board[i] = mark` before the recursive call, `board[i] = None`
after it, on every path (including the pruning `break`).  `f` is the
recursive search; it returns the board it leaves behind. -/
def abMaxLoopSt (f : Cells → Int → Int → (Int × Option Nat) × Cells) (mark : Mark) :
    Cells → List Nat → Int → Int → Int → Option Nat → (Int × Option Nat) × Cells
  | board, [], _, _, bv, bm => ((bv, bm), board)
  | board, i :: rest, alpha, beta, bv, bm =>
    if board.getD i none = none then
      let b1 := board.set i (some mark)
      let r := f b1 alpha beta
      let b2 := r.2.set i none
      let val := r.1.1
      let bv' := if bv < val then val else bv
      let bm' := if bv < val then some i else bm
      let alpha' := max alpha bv'
      if beta ≤ alpha' then ((bv', bm'), b2)
      else abMaxLoopSt f mark b2 rest alpha' beta bv' bm'
    else
      abMaxLoopSt f mark board rest alpha beta bv bm

/-- The minimizing loop with explicit board mutation, symmetric to
`abMaxLoopSt`. -/
def abMinLoopSt (f : Cells → Int → Int → (Int × Option Nat) × Cells) (mark : Mark) :
    Cells → List Nat → Int → Int → Int → Option Nat → (Int × Option Nat) × Cells
  | board, [], _, _, bv, bm => ((bv, bm), board)
  | board, i :: rest, alpha, beta, bv, bm =>
    if board.getD i none = none then
      let b1 := board.set i (some mark)
      let r := f b1 alpha beta
      let b2 := r.2.set i none
      let val := r.1.1
      let bv' := if val < bv then val else bv
      let bm' := if val < bv then some i else bm
      let beta' := min beta bv'
      if beta' ≤ alpha then ((bv', bm'), b2)
      else abMinLoopSt f mark b2 rest alpha beta' bv' bm'
    else
      abMinLoopSt f mark board rest alpha beta bv bm

/-- `AI._minimax` with the shared mutable board threaded through: the
second component is the state of the board when the call returns. -/
def minimaxStAux (ai hu : Mark) (fuel : Nat) (board : Cells) (is_max : Bool)
    (alpha beta : Int) (depth maxd : Nat) : (Int × Option Nat) × Cells :=
  let w := AI._check_winner board
  if w = WRes.win ai then (((100 : Int) - (depth : Int), none), board)
  else if w = WRes.win hu then (((-100 : Int) + (depth : Int), none), board)
  else if w = WRes.draw then (((0 : Int), none), board)
  else if maxd ≤ depth then (((0 : Int), none), board)
  else
    match fuel with
    | 0 => (((0 : Int), none), board)
    | fuel' + 1 =>
      if is_max then
        abMaxLoopSt (fun b a bb => minimaxStAux ai hu fuel' b false a bb (depth + 1) maxd)
          ai board (List.range 9) alpha beta (-9999) none
      else
        abMinLoopSt (fun b a bb => minimaxStAux ai hu fuel' b true a bb (depth + 1) maxd)
          hu board (List.range 9) alpha beta (9999) none

/-- `AI._minimax` with the board state threaded (see `minimaxStAux`). -/
def AI._minimaxSt (ai hu : Mark) (board : Cells) (is_max : Bool)
    (alpha beta : Int) (depth maxd : Nat) : (Int × Option Nat) × Cells :=
  minimaxStAux ai hu (maxd - depth) board is_max alpha beta depth maxd

/-! ## Reference search without pruning (from the spec's words)

Modelled from the spec: plain minimax with the stated terminal scoring,
no alpha-beta window, cells tried in ascending order, and ties between
equally-valued moves resolved to the first-encountered (lowest) index.
Used to state the refinement claims about `AI._minimax`. -/

/-- Maximum of `acc` and the reference values of all empty-cell children,
taken in list order. -/
def sfMax (t : Cells → Int) (mark : Mark) (board : Cells) : List Nat → Int → Int
  | [], acc => acc
  | i :: rest, acc =>
    if board.getD i none = none then
      sfMax t mark board rest (max acc (t (board.set i (some mark))))
    else
      sfMax t mark board rest acc

/-- Minimum version of `sfMax`. -/
def sfMin (t : Cells → Int) (mark : Mark) (board : Cells) : List Nat → Int → Int
  | [], acc => acc
  | i :: rest, acc =>
    if board.getD i none = none then
      sfMin t mark board rest (min acc (t (board.set i (some mark))))
    else
      sfMin t mark board rest acc

/-- Modelled from the spec: plain (unpruned) minimax value with the
terminal scoring of §4.2: engine win `100 - depth`, opponent win
`-100 + depth`, draw `0`, depth cutoff `0`. -/
def specVal (ai hu : Mark) (fuel : Nat) (board : Cells) (is_max : Bool)
    (depth maxd : Nat) : Int :=
  let w := AI._check_winner board
  if w = WRes.win ai then (100 : Int) - (depth : Int)
  else if w = WRes.win hu then (-100 : Int) + (depth : Int)
  else if w = WRes.draw then (0 : Int)
  else if maxd ≤ depth then (0 : Int)
  else
    match fuel with
    | 0 => (0 : Int)
    | fuel' + 1 =>
      if is_max then
        sfMax (fun b => specVal ai hu fuel' b false (depth + 1) maxd) ai board (List.range 9) (-9999)
      else
        sfMin (fun b => specVal ai hu fuel' b true (depth + 1) maxd) hu board (List.range 9) (9999)

/-- Modelled from the spec: the root fold keeping the running best value
and the first (lowest-index) move strictly improving it, over the
reference child values `t`. -/
def specRootFold (t : Cells → Int) (mark : Mark) (board : Cells) :
    List Nat → Int × Option Nat → Int × Option Nat
  | [], p => p
  | i :: rest, p =>
    if board.getD i none = none then
      let v := t (board.set i (some mark))
      if p.1 < v then specRootFold t mark board rest (v, some i)
      else specRootFold t mark board rest p
    else
      specRootFold t mark board rest p

/-- Modelled from the spec: the move a full-width minimax of depth `maxd`
returns — the lowest index among empty cells maximizing the reference
child value. -/
def specChoose (ai hu : Mark) (cells : Cells) (maxd : Nat) : Option Nat :=
  (specRootFold (fun b => specVal ai hu (maxd - 1) b false 1 maxd) ai cells
    (List.range 9) ((-9999 : Int), none)).2

/-- Fail-soft value relation over the window `(alpha, beta)`: the pruned
value `v` matches the reference value `t` exactly when strictly inside
the window, is an upper bound on `t` when failing low, and a lower bound
when failing high. -/
def FS (v t alpha beta : Int) : Prop :=
  (v ≤ alpha → t ≤ v) ∧ (beta ≤ v → v ≤ t) ∧ (alpha < v → v < beta → v = t)

/-! ## Turn controller (`Game`) -/

/-- The `self.mode` strings `'menu'`, `'playing'`, `'gameover'`. -/
inductive Mode
  | menu
  | playing
  | gameover
deriving DecidableEq, Repr

/-- The game-logic state owned by `Game`.  Rendering state (fonts,
buttons, sounds, screen) is presentation-only and omitted; timestamps are
modelled as naturals (`pygame.time.get_ticks()`). -/
structure GameState where
  cells : Cells
  mode : Mode
  vs_ai : Bool
  current_player : Mark
  scores_player : Nat
  scores_ai : Nat
  scores_draws : Nat
  winner : WRes
  winning_combo : Option (Nat × Nat × Nat)
  board_winning_combo : Option (Nat × Nat × Nat)
  last_move_time : Nat
  ai_delay_until : Nat
deriving DecidableEq, Repr

/-- `Game.check_end`: if `Board.winner()` is decided, move to
`'gameover'`, record winner and combo, and bump the matching score
counter (sounds omitted). -/
def Game.check_end (g : GameState) : GameState :=
  let r := Board.winner g.cells
  if r.1 ≠ WRes.nores then
    let g1 := { g with mode := Mode.gameover, winner := r.1,
                       winning_combo := r.2, board_winning_combo := r.2 }
    if r.1 = WRes.win Mark.X then { g1 with scores_player := g1.scores_player + 1 }
    else if r.1 = WRes.win Mark.O then { g1 with scores_ai := g1.scores_ai + 1 }
    else { g1 with scores_draws := g1.scores_draws + 1 }
  else g

/-- `Game.handle_click_board` from the point where the clicked cell index
has been computed from the board geometry (a click inside the board rect
yields `idx = row * 3 + col`; `now` is `pygame.time.get_ticks()`).
Mirrors: return unless `mode == 'playing'`; return unless `0 <= idx < 9`
and the cell is empty; place for `current_player`; on success update
`last_move_time`, run `check_end`, then toggle the turn (scheduling the
AI with a 340 ms delay in vs-AI mode). -/
def Game.handle_click_board (g : GameState) (idx : Int) (now : Nat) : GameState :=
  if g.mode ≠ Mode.playing then g
  else if ¬ (0 ≤ idx ∧ idx < 9) then g
  else if (g.cells.getD idx.toNat none).isSome then g
  else
    let p := Board.place g.cells idx g.current_player
    if p.2 then
      let g1 := Game.check_end { g with cells := p.1, last_move_time := now }
      if g1.mode ≠ Mode.gameover then
        if g1.vs_ai then
          { g1 with current_player := Mark.O, ai_delay_until := now + 340 }
        else
          { g1 with current_player :=
              if g1.current_player = Mark.X then Mark.O else Mark.X }
      else g1
    else g

/-- `Game.ai_turn`: acts only in `'playing'`, vs-AI mode, on O's turn,
once the armed delay has elapsed; asks `best_move` (the `Game`'s `AI` is
constructed with marks O/X and difficulty `'Impossible'`, so the random
source is irrelevant), places the move if any, then `check_end` and hand
the turn back to X. -/
def Game.ai_turn (g : GameState) (now : Nat) : GameState :=
  if ¬ g.vs_ai ∨ g.mode ≠ Mode.playing then g
  else if g.current_player ≠ Mark.O then g
  else if now < g.ai_delay_until then g
  else
    let mv := AI.best_move Mark.O Mark.X Difficulty.Impossible false (fun _ => 0) g.cells
    let g1 :=
      match mv with
      | some m => { g with cells := (Board.place g.cells (m : Int) Mark.O).1 }
      | none => g
    let g2 := Game.check_end { g1 with last_move_time := now }
    if g2.mode ≠ Mode.gameover then { g2 with current_player := Mark.X }
    else g2

/-! ## Self-play safety (claim C2 harness)

The engine of the shipped `Game`: marks O/X, difficulty Impossible,
moving second.  `engineTurn` is one exchange: the opponent X attempts a
cell (attempts at occupied/out-of-range cells, or after the game ended,
do nothing — so every sequence of legal alternating X moves is one
`List Nat`), then the engine answers exactly as `Game.ai_turn` does. -/
def engineTurn (cells : Cells) (x : Nat) : Cells :=
  if AI._check_winner cells ≠ WRes.nores then cells
  else
    let p := Board.place cells (x : Int) Mark.X
    if p.2 then
      if AI._check_winner p.1 ≠ WRes.nores then p.1
      else
        match AI.best_move Mark.O Mark.X Difficulty.Impossible false (fun _ => 0) p.1 with
        | some j => (Board.place p.1 (j : Int) Mark.O).1
        | none => p.1
    else cells

/-- A whole game from the empty board: X plays the listed cells (illegal
attempts are skipped), the Impossible engine answers each legal one. -/
def engineGame (xs : List Nat) : Cells :=
  xs.foldl engineTurn emptyBoard

/-- Number of empty cells among the nine positions. -/
def emptiesCount (cells : Cells) : Nat :=
  ((List.range 9).filter (fun i => decide (cells.getD i none = none))).length

/-- Game-theoretic safety for O: with `oMove` telling whose turn it is,
O (moving on its own turns however it likes — existential) never ends in
an X win, whatever X does (universal).  An already-decided board is safe
iff X has not won; `fuel` bounds the game length (one unit per ply). -/
def oSafe : Nat → Bool → Cells → Bool
  | 0, _, cells =>
    match AI._check_winner cells with
    | WRes.win m => decide (m = Mark.O)
    | WRes.draw => true
    | WRes.nores => false
  | fuel' + 1, oMove, cells =>
    match AI._check_winner cells with
    | WRes.win m => decide (m = Mark.O)
    | WRes.draw => true
    | WRes.nores =>
      if oMove then
        (List.range 9).any fun i =>
          if cells.getD i none = none then oSafe fuel' false (cells.set i (some Mark.O))
          else false
      else
        (List.range 9).all fun i =>
          if cells.getD i none = none then oSafe fuel' true (cells.set i (some Mark.X))
          else true

/-- A strategy tree for O at an X-to-move position: for each X move `x`
it provides O's reply and the subtree for the resulting position. -/
inductive OStrat where
  | node (children : List (Nat × Nat × OStrat)) : OStrat

/-- Look up the strategy entry for the X move `y`. -/
def findResp : List (Nat × Nat × OStrat) → Nat → Option (Nat × OStrat)
  | [], _ => none
  | (x, j, s) :: rest, y => if x = y then some (j, s) else findResp rest y

/-- Verify a strategy tree at an X-to-move position: whatever empty cell
X takes, either the game ends without an X win, or the tree's reply `j`
is a legal O move after which the game again ends without an X win or
the verification continues below. -/
def checkStrat : Nat → Cells → OStrat → Bool
  | 0, _, _ => false
  | fuel + 1, cells, OStrat.node ch =>
    (List.range 9).all fun x =>
      if cells.getD x none = none then
        let c1 := cells.set x (some Mark.X)
        match AI._check_winner c1 with
        | WRes.win m => decide (m ≠ Mark.X)
        | WRes.draw => true
        | WRes.nores =>
          match findResp ch x with
          | none => false
          | some (j, sub) =>
            if j < 9 ∧ c1.getD j none = none then
              let c2 := c1.set j (some Mark.O)
              match AI._check_winner c2 with
              | WRes.win m => decide (m ≠ Mark.X)
              | WRes.draw => true
              | WRes.nores => checkStrat fuel c2 sub
            else false
      else true

/-- The invariant carried through a whole engine game (X to move): a
9-cell board, X has not completed a triple, and while the game is
undecided O can still force at least a draw. -/
def C2Inv (cells : Cells) : Prop :=
  cells.length = 9 ∧ AI._check_winner cells ≠ WRes.win Mark.X ∧
    (AI._check_winner cells = WRes.nores →
      oSafe (emptiesCount cells) false cells = true)

/-- Does triple `t` win on `cells`: its first cell holds a mark and the
other two hold the same mark (the loop condition of `Board.winner()`). -/
def tripleWins (cells : Cells) (t : Nat × Nat × Nat) : Bool :=
  (cells.getD t.1 none).isSome &&
  decide (cells.getD t.2.1 none = cells.getD t.1 none) &&
  decide (cells.getD t.2.2 none = cells.getD t.1 none)

/-- The mark in the first cell of a triple (meaningful when the triple
wins). -/
def markAt (cells : Cells) (t : Nat × Nat × Nat) : Mark :=
  (cells.getD t.1 none).getD Mark.X

/-- A board of spec scenario 3 flavour: fully occupied, no uniform
triple. -/
def drawBoard : Cells :=
  [some Mark.X, some Mark.O, some Mark.X,
   some Mark.X, some Mark.O, some Mark.O,
   some Mark.O, some Mark.X, some Mark.X]

/-- A board where O has completed the top row. -/
def oWonBoard : Cells :=
  [some Mark.O, some Mark.O, some Mark.O, some Mark.X, some Mark.X, none, none, none, none]

/-- A controller state in vs-AI mode where the human has just moved
(X at cell 0), so it is the engine's turn and its move is armed for
tick 1000. -/
def pendingAIState : GameState :=
  { cells := [some Mark.X, none, none, none, none, none, none, none, none]
    mode := Mode.playing
    vs_ai := true
    current_player := Mark.O
    scores_player := 0
    scores_ai := 0
    scores_draws := 0
    winner := WRes.nores
    winning_combo := none
    board_winning_combo := none
    last_move_time := 500
    ai_delay_until := 1000 }

/-- A drawing strategy for O from the empty board (X to move), found
offline; verified in-logic by `checkStrat`. -/
def oStratTable : OStrat :=
  OStrat.node [(0, 4, OStrat.node [(1, 2, OStrat.node [(3, 6, OStrat.node []),
(5, 6, OStrat.node []),
(6, 3, OStrat.node [(5, 7, OStrat.node []),
(7, 5, OStrat.node []),
(8, 5, OStrat.node [])]),
(7, 6, OStrat.node []),
(8, 6, OStrat.node [])]),
(2, 1, OStrat.node [(3, 7, OStrat.node []),
(5, 7, OStrat.node []),
(6, 7, OStrat.node []),
(7, 3, OStrat.node [(5, 8, OStrat.node []),
(6, 5, OStrat.node []),
(8, 5, OStrat.node [])]),
(8, 7, OStrat.node [])]),
(3, 6, OStrat.node [(1, 2, OStrat.node []),
(2, 1, OStrat.node [(5, 7, OStrat.node []),
(7, 5, OStrat.node []),
(8, 7, OStrat.node [])]),
(5, 2, OStrat.node []),
(7, 2, OStrat.node []),
(8, 2, OStrat.node [])]),
(5, 1, OStrat.node [(2, 7, OStrat.node []),
(3, 7, OStrat.node []),
(6, 7, OStrat.node []),
(7, 6, OStrat.node [(2, 8, OStrat.node []),
(3, 2, OStrat.node []),
(8, 2, OStrat.node [])]),
(8, 7, OStrat.node [])]),
(6, 3, OStrat.node [(1, 5, OStrat.node []),
(2, 5, OStrat.node []),
(5, 1, OStrat.node [(2, 7, OStrat.node []),
(7, 8, OStrat.node []),
(8, 7, OStrat.node [])]),
(7, 5, OStrat.node []),
(8, 5, OStrat.node [])]),
(7, 3, OStrat.node [(1, 5, OStrat.node []),
(2, 5, OStrat.node []),
(5, 2, OStrat.node [(1, 6, OStrat.node []),
(6, 8, OStrat.node []),
(8, 6, OStrat.node [])]),
(6, 5, OStrat.node []),
(8, 5, OStrat.node [])]),
(8, 1, OStrat.node [(2, 7, OStrat.node []),
(3, 7, OStrat.node []),
(5, 7, OStrat.node []),
(6, 7, OStrat.node []),
(7, 6, OStrat.node [(2, 5, OStrat.node []),
(3, 2, OStrat.node []),
(5, 2, OStrat.node [])])])]),
(1, 0, OStrat.node [(2, 3, OStrat.node [(4, 6, OStrat.node []),
(5, 6, OStrat.node []),
(6, 4, OStrat.node [(5, 8, OStrat.node []),
(7, 5, OStrat.node []),
(8, 5, OStrat.node [])]),
(7, 6, OStrat.node []),
(8, 6, OStrat.node [])]),
(3, 4, OStrat.node [(2, 8, OStrat.node []),
(5, 8, OStrat.node []),
(6, 8, OStrat.node []),
(7, 8, OStrat.node []),
(8, 2, OStrat.node [(5, 6, OStrat.node []),
(6, 7, OStrat.node []),
(7, 6, OStrat.node [])])]),
(4, 7, OStrat.node [(2, 6, OStrat.node [(3, 8, OStrat.node []),
(5, 3, OStrat.node []),
(8, 3, OStrat.node [])]),
(3, 5, OStrat.node [(2, 6, OStrat.node []),
(6, 2, OStrat.node []),
(8, 2, OStrat.node [])]),
(5, 3, OStrat.node [(2, 6, OStrat.node []),
(6, 2, OStrat.node []),
(8, 6, OStrat.node [])]),
(6, 2, OStrat.node [(3, 5, OStrat.node []),
(5, 3, OStrat.node []),
(8, 3, OStrat.node [])]),
(8, 2, OStrat.node [(3, 5, OStrat.node []),
(5, 3, OStrat.node []),
(6, 3, OStrat.node [])])]),
(5, 6, OStrat.node [(2, 3, OStrat.node []),
(3, 4, OStrat.node [(2, 8, OStrat.node []),
(7, 2, OStrat.node []),
(8, 2, OStrat.node [])]),
(4, 3, OStrat.node []),
(7, 3, OStrat.node []),
(8, 3, OStrat.node [])]),
(6, 4, OStrat.node [(2, 8, OStrat.node []),
(3, 8, OStrat.node []),
(5, 8, OStrat.node []),
(7, 8, OStrat.node []),
(8, 7, OStrat.node [(2, 5, OStrat.node []),
(3, 2, OStrat.node []),
(5, 2, OStrat.node [])])]),
(7, 4, OStrat.node [(2, 8, OStrat.node []),
(3, 8, OStrat.node []),
(5, 8, OStrat.node []),
(6, 8, OStrat.node []),
(8, 6, OStrat.node [(2, 3, OStrat.node []),
(3, 2, OStrat.node []),
(5, 2, OStrat.node [])])]),
(8, 4, OStrat.node [(2, 5, OStrat.node [(3, 6, OStrat.node []),
(6, 3, OStrat.node []),
(7, 3, OStrat.node [])]),
(3, 2, OStrat.node [(5, 6, OStrat.node []),
(6, 7, OStrat.node []),
(7, 6, OStrat.node [])]),
(5, 2, OStrat.node [(3, 6, OStrat.node []),
(6, 7, OStrat.node []),
(7, 6, OStrat.node [])]),
(6, 7, OStrat.node [(2, 5, OStrat.node []),
(3, 2, OStrat.node []),
(5, 2, OStrat.node [])]),
(7, 6, OStrat.node [(2, 3, OStrat.node []),
(3, 2, OStrat.node []),
(5, 2, OStrat.node [])])])]),
(2, 4, OStrat.node [(0, 1, OStrat.node [(3, 7, OStrat.node []),
(5, 7, OStrat.node []),
(6, 7, OStrat.node []),
(7, 3, OStrat.node [(5, 8, OStrat.node []),
(6, 5, OStrat.node []),
(8, 5, OStrat.node [])]),
(8, 7, OStrat.node [])]),
(1, 0, OStrat.node [(3, 8, OStrat.node []),
(5, 8, OStrat.node []),
(6, 8, OStrat.node []),
(7, 8, OStrat.node []),
(8, 5, OStrat.node [(3, 6, OStrat.node []),
(6, 3, OStrat.node []),
(7, 3, OStrat.node [])])]),
(3, 0, OStrat.node [(1, 8, OStrat.node []),
(5, 8, OStrat.node []),
(6, 8, OStrat.node []),
(7, 8, OStrat.node []),
(8, 5, OStrat.node [(1, 6, OStrat.node []),
(6, 7, OStrat.node []),
(7, 6, OStrat.node [])])]),
(5, 8, OStrat.node [(0, 1, OStrat.node [(3, 7, OStrat.node []),
(6, 7, OStrat.node []),
(7, 3, OStrat.node [])]),
(1, 0, OStrat.node []),
(3, 0, OStrat.node []),
(6, 0, OStrat.node []),
(7, 0, OStrat.node [])]),
(6, 1, OStrat.node [(0, 7, OStrat.node []),
(3, 7, OStrat.node []),
(5, 7, OStrat.node []),
(7, 8, OStrat.node [(0, 3, OStrat.node []),
(3, 0, OStrat.node []),
(5, 0, OStrat.node [])]),
(8, 7, OStrat.node [])]),
(7, 3, OStrat.node [(0, 5, OStrat.node []),
(1, 5, OStrat.node []),
(5, 8, OStrat.node [(0, 1, OStrat.node []),
(1, 0, OStrat.node []),
(6, 0, OStrat.node [])]),
(6, 5, OStrat.node []),
(8, 5, OStrat.node [])]),
(8, 5, OStrat.node [(0, 3, OStrat.node []),
(1, 3, OStrat.node []),
(3, 0, OStrat.node [(1, 6, OStrat.node []),
(6, 7, OStrat.node []),
(7, 6, OStrat.node [])]),
(6, 3, OStrat.node []),
(7, 3, OStrat.node [])])]),
(3, 0, OStrat.node [(1, 4, OStrat.node [(2, 8, OStrat.node []),
(5, 8, OStrat.node []),
(6, 8, OStrat.node []),
(7, 8, OStrat.node []),
(8, 2, OStrat.node [(5, 6, OStrat.node []),
(6, 7, OStrat.node []),
(7, 6, OStrat.node [])])]),
(2, 4, OStrat.node [(1, 8, OStrat.node []),
(5, 8, OStrat.node []),
(6, 8, OStrat.node []),
(7, 8, OStrat.node []),
(8, 5, OStrat.node [(1, 6, OStrat.node []),
(6, 7, OStrat.node []),
(7, 6, OStrat.node [])])]),
(4, 5, OStrat.node [(1, 7, OStrat.node [(2, 6, OStrat.node []),
(6, 2, OStrat.node []),
(8, 2, OStrat.node [])]),
(2, 6, OStrat.node [(1, 7, OStrat.node []),
(7, 1, OStrat.node []),
(8, 1, OStrat.node [])]),
(6, 2, OStrat.node [(1, 8, OStrat.node []),
(7, 1, OStrat.node []),
(8, 1, OStrat.node [])]),
(7, 1, OStrat.node [(2, 6, OStrat.node []),
(6, 2, OStrat.node []),
(8, 2, OStrat.node [])]),
(8, 1, OStrat.node [(2, 6, OStrat.node []),
(6, 2, OStrat.node []),
(7, 2, OStrat.node [])])]),
(5, 4, OStrat.node [(1, 8, OStrat.node []),
(2, 8, OStrat.node []),
(6, 8, OStrat.node []),
(7, 8, OStrat.node []),
(8, 2, OStrat.node [(1, 6, OStrat.node []),
(6, 1, OStrat.node []),
(7, 1, OStrat.node [])])]),
(6, 1, OStrat.node [(2, 4, OStrat.node [(5, 7, OStrat.node []),
(7, 8, OStrat.node []),
(8, 7, OStrat.node [])]),
(4, 2, OStrat.node []),
(5, 2, OStrat.node []),
(7, 2, OStrat.node []),
(8, 2, OStrat.node [])]),
(7, 2, OStrat.node [(1, 4, OStrat.node [(5, 6, OStrat.node []),
(6, 8, OStrat.node []),
(8, 6, OStrat.node [])]),
(4, 1, OStrat.node []),
(5, 1, OStrat.node []),
(6, 1, OStrat.node []),
(8, 1, OStrat.node [])]),
(8, 2, OStrat.node [(1, 4, OStrat.node [(5, 6, OStrat.node []),
(6, 7, OStrat.node []),
(7, 6, OStrat.node [])]),
(4, 1, OStrat.node []),
(5, 1, OStrat.node []),
(6, 1, OStrat.node []),
(7, 1, OStrat.node [])])]),
(4, 0, OStrat.node [(1, 7, OStrat.node [(2, 6, OStrat.node [(3, 8, OStrat.node []),
(5, 3, OStrat.node []),
(8, 3, OStrat.node [])]),
(3, 5, OStrat.node [(2, 6, OStrat.node []),
(6, 2, OStrat.node []),
(8, 2, OStrat.node [])]),
(5, 3, OStrat.node [(2, 6, OStrat.node []),
(6, 2, OStrat.node []),
(8, 6, OStrat.node [])]),
(6, 2, OStrat.node [(3, 5, OStrat.node []),
(5, 3, OStrat.node []),
(8, 3, OStrat.node [])]),
(8, 2, OStrat.node [(3, 5, OStrat.node []),
(5, 3, OStrat.node []),
(6, 3, OStrat.node [])])]),
(2, 6, OStrat.node [(1, 3, OStrat.node []),
(3, 5, OStrat.node [(1, 7, OStrat.node []),
(7, 1, OStrat.node []),
(8, 1, OStrat.node [])]),
(5, 3, OStrat.node []),
(7, 3, OStrat.node []),
(8, 3, OStrat.node [])]),
(3, 5, OStrat.node [(1, 7, OStrat.node [(2, 6, OStrat.node []),
(6, 2, OStrat.node []),
(8, 2, OStrat.node [])]),
(2, 6, OStrat.node [(1, 7, OStrat.node []),
(7, 1, OStrat.node []),
(8, 1, OStrat.node [])]),
(6, 2, OStrat.node [(1, 8, OStrat.node []),
(7, 1, OStrat.node []),
(8, 1, OStrat.node [])]),
(7, 1, OStrat.node [(2, 6, OStrat.node []),
(6, 2, OStrat.node []),
(8, 2, OStrat.node [])]),
(8, 1, OStrat.node [(2, 6, OStrat.node []),
(6, 2, OStrat.node []),
(7, 2, OStrat.node [])])]),
(5, 3, OStrat.node [(1, 6, OStrat.node []),
(2, 6, OStrat.node []),
(6, 2, OStrat.node [(1, 7, OStrat.node []),
(7, 1, OStrat.node []),
(8, 1, OStrat.node [])]),
(7, 6, OStrat.node []),
(8, 6, OStrat.node [])]),
(6, 2, OStrat.node [(1, 7, OStrat.node [(3, 5, OStrat.node []),
(5, 3, OStrat.node []),
(8, 3, OStrat.node [])]),
(3, 1, OStrat.node []),
(5, 1, OStrat.node []),
(7, 1, OStrat.node []),
(8, 1, OStrat.node [])]),
(7, 1, OStrat.node [(2, 6, OStrat.node [(3, 5, OStrat.node []),
(5, 3, OStrat.node []),
(8, 3, OStrat.node [])]),
(3, 2, OStrat.node []),
(5, 2, OStrat.node []),
(6, 2, OStrat.node []),
(8, 2, OStrat.node [])]),
(8, 2, OStrat.node [(1, 7, OStrat.node [(3, 5, OStrat.node []),
(5, 3, OStrat.node []),
(6, 3, OStrat.node [])]),
(3, 1, OStrat.node []),
(5, 1, OStrat.node []),
(6, 1, OStrat.node []),
(7, 1, OStrat.node [])])]),
(5, 2, OStrat.node [(0, 3, OStrat.node [(1, 4, OStrat.node [(6, 7, OStrat.node []),
(7, 6, OStrat.node []),
(8, 6, OStrat.node [])]),
(4, 8, OStrat.node [(1, 7, OStrat.node []),
(6, 1, OStrat.node []),
(7, 1, OStrat.node [])]),
(6, 4, OStrat.node [(1, 7, OStrat.node []),
(7, 8, OStrat.node []),
(8, 7, OStrat.node [])]),
(7, 4, OStrat.node [(1, 6, OStrat.node []),
(6, 8, OStrat.node []),
(8, 6, OStrat.node [])]),
(8, 4, OStrat.node [(1, 6, OStrat.node []),
(6, 7, OStrat.node []),
(7, 6, OStrat.node [])])]),
(1, 3, OStrat.node [(0, 4, OStrat.node [(6, 7, OStrat.node []),
(7, 6, OStrat.node []),
(8, 6, OStrat.node [])]),
(4, 7, OStrat.node [(0, 8, OStrat.node []),
(6, 0, OStrat.node []),
(8, 0, OStrat.node [])]),
(6, 4, OStrat.node [(0, 7, OStrat.node []),
(7, 8, OStrat.node []),
(8, 7, OStrat.node [])]),
(7, 4, OStrat.node [(0, 6, OStrat.node []),
(6, 8, OStrat.node []),
(8, 6, OStrat.node [])]),
(8, 6, OStrat.node [(0, 4, OStrat.node []),
(4, 0, OStrat.node []),
(7, 0, OStrat.node [])])]),
(3, 4, OStrat.node [(0, 6, OStrat.node []),
(1, 6, OStrat.node []),
(6, 0, OStrat.node [(1, 8, OStrat.node []),
(7, 1, OStrat.node []),
(8, 1, OStrat.node [])]),
(7, 6, OStrat.node []),
(8, 6, OStrat.node [])]),
(4, 3, OStrat.node [(0, 8, OStrat.node [(1, 7, OStrat.node []),
(6, 1, OStrat.node []),
(7, 1, OStrat.node [])]),
(1, 7, OStrat.node [(0, 8, OStrat.node []),
(6, 0, OStrat.node []),
(8, 0, OStrat.node [])]),
(6, 0, OStrat.node [(1, 7, OStrat.node []),
(7, 1, OStrat.node []),
(8, 1, OStrat.node [])]),
(7, 1, OStrat.node [(0, 8, OStrat.node []),
(6, 0, OStrat.node []),
(8, 0, OStrat.node [])]),
(8, 0, OStrat.node [(1, 6, OStrat.node []),
(6, 1, OStrat.node []),
(7, 1, OStrat.node [])])]),
(6, 0, OStrat.node [(1, 4, OStrat.node [(3, 8, OStrat.node []),
(7, 8, OStrat.node []),
(8, 7, OStrat.node [])]),
(3, 1, OStrat.node []),
(4, 1, OStrat.node []),
(7, 1, OStrat.node []),
(8, 1, OStrat.node [])]),
(7, 0, OStrat.node [(1, 4, OStrat.node [(3, 6, OStrat.node []),
(6, 8, OStrat.node []),
(8, 6, OStrat.node [])]),
(3, 1, OStrat.node []),
(4, 1, OStrat.node []),
(6, 1, OStrat.node []),
(8, 1, OStrat.node [])]),
(8, 0, OStrat.node [(1, 6, OStrat.node [(3, 4, OStrat.node []),
(4, 3, OStrat.node []),
(7, 3, OStrat.node [])]),
(3, 1, OStrat.node []),
(4, 1, OStrat.node []),
(6, 1, OStrat.node []),
(7, 1, OStrat.node [])])]),
(6, 4, OStrat.node [(0, 3, OStrat.node [(1, 5, OStrat.node []),
(2, 5, OStrat.node []),
(5, 1, OStrat.node [(2, 7, OStrat.node []),
(7, 8, OStrat.node []),
(8, 7, OStrat.node [])]),
(7, 5, OStrat.node []),
(8, 5, OStrat.node [])]),
(1, 0, OStrat.node [(2, 8, OStrat.node []),
(3, 8, OStrat.node []),
(5, 8, OStrat.node []),
(7, 8, OStrat.node []),
(8, 7, OStrat.node [(2, 5, OStrat.node []),
(3, 2, OStrat.node []),
(5, 2, OStrat.node [])])]),
(2, 1, OStrat.node [(0, 7, OStrat.node []),
(3, 7, OStrat.node []),
(5, 7, OStrat.node []),
(7, 8, OStrat.node [(0, 3, OStrat.node []),
(3, 0, OStrat.node []),
(5, 0, OStrat.node [])]),
(8, 7, OStrat.node [])]),
(3, 0, OStrat.node [(1, 8, OStrat.node []),
(2, 8, OStrat.node []),
(5, 8, OStrat.node []),
(7, 8, OStrat.node []),
(8, 7, OStrat.node [(1, 2, OStrat.node []),
(2, 1, OStrat.node []),
(5, 1, OStrat.node [])])]),
(5, 1, OStrat.node [(0, 7, OStrat.node []),
(2, 7, OStrat.node []),
(3, 7, OStrat.node []),
(7, 8, OStrat.node [(0, 3, OStrat.node []),
(2, 0, OStrat.node []),
(3, 0, OStrat.node [])]),
(8, 7, OStrat.node [])]),
(7, 8, OStrat.node [(0, 3, OStrat.node [(1, 5, OStrat.node []),
(2, 5, OStrat.node []),
(5, 1, OStrat.node [])]),
(1, 0, OStrat.node []),
(2, 0, OStrat.node []),
(3, 0, OStrat.node []),
(5, 0, OStrat.node [])]),
(8, 7, OStrat.node [(0, 1, OStrat.node []),
(1, 0, OStrat.node [(2, 5, OStrat.node []),
(3, 2, OStrat.node []),
(5, 2, OStrat.node [])]),
(2, 1, OStrat.node []),
(3, 1, OStrat.node []),
(5, 1, OStrat.node [])])]),
(7, 1, OStrat.node [(0, 6, OStrat.node [(2, 4, OStrat.node [(3, 5, OStrat.node []),
(5, 8, OStrat.node []),
(8, 5, OStrat.node [])]),
(3, 4, OStrat.node [(2, 5, OStrat.node []),
(5, 2, OStrat.node []),
(8, 2, OStrat.node [])]),
(4, 8, OStrat.node [(2, 3, OStrat.node []),
(3, 5, OStrat.node []),
(5, 3, OStrat.node [])]),
(5, 4, OStrat.node [(2, 8, OStrat.node []),
(3, 2, OStrat.node []),
(8, 2, OStrat.node [])]),
(8, 4, OStrat.node [(2, 5, OStrat.node []),
(3, 2, OStrat.node []),
(5, 2, OStrat.node [])])]),
(2, 6, OStrat.node [(0, 4, OStrat.node [(3, 5, OStrat.node []),
(5, 8, OStrat.node []),
(8, 5, OStrat.node [])]),
(3, 4, OStrat.node [(0, 5, OStrat.node []),
(5, 8, OStrat.node []),
(8, 5, OStrat.node [])]),
(4, 0, OStrat.node [(3, 5, OStrat.node []),
(5, 3, OStrat.node []),
(8, 3, OStrat.node [])]),
(5, 8, OStrat.node [(0, 3, OStrat.node []),
(3, 4, OStrat.node []),
(4, 3, OStrat.node [])]),
(8, 5, OStrat.node [(0, 4, OStrat.node []),
(3, 0, OStrat.node []),
(4, 0, OStrat.node [])])]),
(3, 6, OStrat.node [(0, 4, OStrat.node [(2, 5, OStrat.node []),
(5, 2, OStrat.node []),
(8, 2, OStrat.node [])]),
(2, 4, OStrat.node [(0, 5, OStrat.node []),
(5, 8, OStrat.node []),
(8, 5, OStrat.node [])]),
(4, 5, OStrat.node [(0, 8, OStrat.node []),
(2, 0, OStrat.node []),
(8, 0, OStrat.node [])]),
(5, 4, OStrat.node [(0, 2, OStrat.node []),
(2, 8, OStrat.node []),
(8, 2, OStrat.node [])]),
(8, 2, OStrat.node [(0, 4, OStrat.node []),
(4, 0, OStrat.node []),
(5, 0, OStrat.node [])])]),
(4, 0, OStrat.node [(2, 6, OStrat.node [(3, 5, OStrat.node []),
(5, 3, OStrat.node []),
(8, 3, OStrat.node [])]),
(3, 2, OStrat.node []),
(5, 2, OStrat.node []),
(6, 2, OStrat.node []),
(8, 2, OStrat.node [])]),
(5, 6, OStrat.node [(0, 4, OStrat.node [(2, 8, OStrat.node []),
(3, 2, OStrat.node []),
(8, 2, OStrat.node [])]),
(2, 8, OStrat.node [(0, 3, OStrat.node []),
(3, 4, OStrat.node []),
(4, 3, OStrat.node [])]),
(3, 4, OStrat.node [(0, 2, OStrat.node []),
(2, 8, OStrat.node []),
(8, 2, OStrat.node [])]),
(4, 3, OStrat.node [(0, 8, OStrat.node []),
(2, 0, OStrat.node []),
(8, 0, OStrat.node [])]),
(8, 2, OStrat.node [(0, 4, OStrat.node []),
(3, 0, OStrat.node []),
(4, 0, OStrat.node [])])]),
(6, 8, OStrat.node [(0, 3, OStrat.node [(2, 4, OStrat.node []),
(4, 2, OStrat.node []),
(5, 2, OStrat.node [])]),
(2, 4, OStrat.node [(0, 3, OStrat.node []),
(3, 0, OStrat.node []),
(5, 0, OStrat.node [])]),
(3, 0, OStrat.node [(2, 4, OStrat.node []),
(4, 2, OStrat.node []),
(5, 2, OStrat.node [])]),
(4, 2, OStrat.node [(0, 5, OStrat.node []),
(3, 0, OStrat.node []),
(5, 0, OStrat.node [])]),
(5, 0, OStrat.node [(2, 4, OStrat.node []),
(3, 2, OStrat.node []),
(4, 2, OStrat.node [])])]),
(8, 6, OStrat.node [(0, 4, OStrat.node [(2, 5, OStrat.node []),
(3, 2, OStrat.node []),
(5, 2, OStrat.node [])]),
(2, 5, OStrat.node [(0, 4, OStrat.node []),
(3, 0, OStrat.node []),
(4, 0, OStrat.node [])]),
(3, 2, OStrat.node [(0, 4, OStrat.node []),
(4, 0, OStrat.node []),
(5, 0, OStrat.node [])]),
(4, 0, OStrat.node [(2, 3, OStrat.node []),
(3, 2, OStrat.node []),
(5, 2, OStrat.node [])]),
(5, 2, OStrat.node [(0, 4, OStrat.node []),
(3, 0, OStrat.node []),
(4, 0, OStrat.node [])])])]),
(8, 4, OStrat.node [(0, 1, OStrat.node [(2, 7, OStrat.node []),
(3, 7, OStrat.node []),
(5, 7, OStrat.node []),
(6, 7, OStrat.node []),
(7, 6, OStrat.node [(2, 5, OStrat.node []),
(3, 2, OStrat.node []),
(5, 2, OStrat.node [])])]),
(1, 0, OStrat.node [(2, 5, OStrat.node [(3, 6, OStrat.node []),
(6, 3, OStrat.node []),
(7, 3, OStrat.node [])]),
(3, 2, OStrat.node [(5, 6, OStrat.node []),
(6, 7, OStrat.node []),
(7, 6, OStrat.node [])]),
(5, 2, OStrat.node [(3, 6, OStrat.node []),
(6, 7, OStrat.node []),
(7, 6, OStrat.node [])]),
(6, 7, OStrat.node [(2, 5, OStrat.node []),
(3, 2, OStrat.node []),
(5, 2, OStrat.node [])]),
(7, 6, OStrat.node [(2, 3, OStrat.node []),
(3, 2, OStrat.node []),
(5, 2, OStrat.node [])])]),
(2, 5, OStrat.node [(0, 3, OStrat.node []),
(1, 3, OStrat.node []),
(3, 0, OStrat.node [(1, 6, OStrat.node []),
(6, 7, OStrat.node []),
(7, 6, OStrat.node [])]),
(6, 3, OStrat.node []),
(7, 3, OStrat.node [])]),
(3, 0, OStrat.node [(1, 2, OStrat.node [(5, 6, OStrat.node []),
(6, 7, OStrat.node []),
(7, 6, OStrat.node [])]),
(2, 5, OStrat.node [(1, 6, OStrat.node []),
(6, 7, OStrat.node []),
(7, 6, OStrat.node [])]),
(5, 2, OStrat.node [(1, 6, OStrat.node []),
(6, 1, OStrat.node []),
(7, 1, OStrat.node [])]),
(6, 7, OStrat.node [(1, 2, OStrat.node []),
(2, 1, OStrat.node []),
(5, 1, OStrat.node [])]),
(7, 6, OStrat.node [(1, 2, OStrat.node []),
(2, 5, OStrat.node []),
(5, 2, OStrat.node [])])]),
(5, 2, OStrat.node [(0, 6, OStrat.node []),
(1, 6, OStrat.node []),
(3, 6, OStrat.node []),
(6, 7, OStrat.node [(0, 1, OStrat.node []),
(1, 0, OStrat.node []),
(3, 1, OStrat.node [])]),
(7, 6, OStrat.node [])]),
(6, 7, OStrat.node [(0, 1, OStrat.node []),
(1, 0, OStrat.node [(2, 5, OStrat.node []),
(3, 2, OStrat.node []),
(5, 2, OStrat.node [])]),
(2, 1, OStrat.node []),
(3, 1, OStrat.node []),
(5, 1, OStrat.node [])]),
(7, 6, OStrat.node [(0, 2, OStrat.node []),
(1, 2, OStrat.node []),
(2, 5, OStrat.node [(0, 3, OStrat.node []),
(1, 3, OStrat.node []),
(3, 0, OStrat.node [])]),
(3, 2, OStrat.node []),
(5, 2, OStrat.node [])])])]

/-! # Lemmas and claim theorems -/

theorem getD_set_self : ∀ (l : Cells) (i : Nat) (a : Cell), i < l.length →
    (l.set i a).getD i none = a
  | [], i, a, h => absurd h (by simp)
  | c :: t, 0, a, h => rfl
  | c :: t, i + 1, a, h => getD_set_self t i a (by simpa using h)

theorem getD_set_ne : ∀ (l : Cells) (i j : Nat) (a : Cell), i ≠ j →
    (l.set i a).getD j none = l.getD j none
  | [], _, _, _, _ => rfl
  | c :: t, 0, 0, a, h => absurd rfl h
  | c :: t, 0, j + 1, a, h => rfl
  | c :: t, i + 1, 0, a, h => rfl
  | c :: t, i + 1, j + 1, a, h => getD_set_ne t i j a (fun e => h (by rw [e]))

theorem set_getD_none : ∀ (l : Cells) (i : Nat), l.getD i none = none →
    l.set i none = l
  | [], _, _ => rfl
  | c :: t, 0, h => by
    simp only [List.getD_cons_zero] at h
    simp [h]
  | c :: t, i + 1, h => by
    simp only [List.getD_cons_succ] at h
    simp [List.set, set_getD_none t i h]

theorem length_set_eq (l : Cells) (i : Nat) (a : Cell) : (l.set i a).length = l.length := by
  simp

/-- The scan of `Board.winner()` finds exactly the first triple (in list
order) satisfying `tripleWins`, and reports that triple's mark. -/
theorem winnerScan_eq_find (cells : Cells) :
    ∀ combos : List (Nat × Nat × Nat),
      winnerScan cells combos =
        (combos.find? (tripleWins cells)).map (fun t => (markAt cells t, t))
  | [] => rfl
  | (a, b, c) :: tl => by
    have ih := winnerScan_eq_find cells tl
    simp only [winnerScan, List.getD_eq_getElem?_getD]
    cases h : cells[a]?.getD none with
    | none =>
      have hp : ¬ tripleWins cells (a, b, c) = true := by
        simp [tripleWins, h]
      rw [List.find?_cons_of_neg tl hp]
      exact ih
    | some m =>
      by_cases hbc : cells[b]?.getD none = some m ∧ cells[c]?.getD none = some m
      · have hp : tripleWins cells (a, b, c) = true := by
          simp [tripleWins, h, hbc.1, hbc.2]
        rw [List.find?_cons_of_pos tl hp]
        simp [markAt, h, hbc]
      · have hp : ¬ tripleWins cells (a, b, c) = true := by
          simp only [tripleWins, List.getD_eq_getElem?_getD, h, Bool.and_eq_true,
            decide_eq_true_eq, Option.isSome_some, true_and, not_and]
          intro hb hc
          exact hbc ⟨hb, hc⟩
        rw [List.find?_cons_of_neg tl hp]
        simp [hbc, ih]

/-- The scan of `AI._check_winner` agrees with the scan of
`Board.winner()`, forgetting the triple. -/
theorem checkScan_eq (cells : Cells) :
    ∀ combos : List (Nat × Nat × Nat),
      checkScan cells combos = (winnerScan cells combos).map Prod.fst
  | [] => rfl
  | (a, b, c) :: tl => by
    have ih := checkScan_eq cells tl
    simp only [checkScan, winnerScan, List.getD_eq_getElem?_getD]
    cases h : cells[a]?.getD none with
    | none => exact ih
    | some m =>
      by_cases hbc : cells[b]?.getD none = some m ∧ cells[c]?.getD none = some m
      · simp [hbc]
      · simp [hbc, ih]

/-- Claim C1: for every 9-cell board, `winner()` returns `Win(mark,
triple)` for the first triple in the fixed enumeration order whose three
cells are non-empty and identical; if no triple matches it returns `Draw`
when all 9 cells are occupied and in-progress otherwise. -/
theorem claim_C1 (cells : Cells) (h9 : cells.length = 9) :
    (∀ a b c, WIN_COMBINATIONS.find? (tripleWins cells) = some (a, b, c) →
      ∃ m, cells.getD a none = some m ∧ cells.getD b none = some m ∧
        cells.getD c none = some m ∧
        Board.winner cells = (WRes.win m, some (a, b, c))) ∧
    (WIN_COMBINATIONS.find? (tripleWins cells) = none →
      (cells.all Option.isSome = true → Board.winner cells = (WRes.draw, none)) ∧
      (cells.all Option.isSome = false → Board.winner cells = (WRes.nores, none))) := by
  constructor
  · intro a b c hfind
    have hwin : tripleWins cells (a, b, c) = true := List.find?_some hfind
    simp only [tripleWins, Bool.and_eq_true, decide_eq_true_eq] at hwin
    have ha : (cells.getD a none).isSome := hwin.1.1
    obtain ⟨m, hm⟩ := Option.isSome_iff_exists.mp ha
    refine ⟨m, hm, ?_, ?_, ?_⟩
    · rw [hwin.1.2, hm]
    · rw [hwin.2, hm]
    · have hm' : cells[a]?.getD none = some m := by
        simpa using hm
      unfold Board.winner
      rw [winnerScan_eq_find, hfind]
      simp [markAt, hm']
  · intro hfind
    refine ⟨fun hall => ?_, fun hall => ?_⟩ <;>
      (unfold Board.winner; rw [winnerScan_eq_find, hfind]; simp [hall])

theorem claim_C1_witness :
    ∃ m, wonBoard.getD 0 none = some m ∧ wonBoard.getD 1 none = some m ∧
      wonBoard.getD 2 none = some m ∧
      Board.winner wonBoard = (WRes.win m, some (0, 1, 2)) :=
  (claim_C1 wonBoard (by decide)).1 0 1 2 (by decide)

/-- The AI's private win check agrees with the board's on every cell
list. -/
theorem check_eq_winner_fst (cells : Cells) :
    AI._check_winner cells = (Board.winner cells).1 := by
  unfold AI._check_winner Board.winner
  rw [checkScan_eq]
  cases h : winnerScan cells WIN_COMBINATIONS with
  | none =>
    by_cases hall : cells.all Option.isSome <;> simp [hall]
  | some p =>
    obtain ⟨m, t⟩ := p
    simp

/-- Claim C10: the AI's private win check agrees with the board's:
`_check_winner(cells)` is the first component of `Board.winner()` on the
same cells. -/
theorem claim_C10 (cells : Cells) : AI._check_winner cells = (Board.winner cells).1 :=
  check_eq_winner_fst cells

/-- Claim C3: `place` fails (returns `false`, no cell changed) when the
index is outside `[0,8]` or the cell is occupied; otherwise it sets
exactly the addressed cell, leaves every other cell unchanged and
returns `true`; and a second `place` at the same index then fails and
changes nothing. -/
theorem claim_C3 (cells : Cells) (idx : Int) (mark mark' : Mark)
    (h9 : cells.length = 9) :
    ((¬ (0 ≤ idx ∧ idx < 9) ∨ cells.getD idx.toNat none ≠ none) →
      Board.place cells idx mark = (cells, false)) ∧
    ((0 ≤ idx ∧ idx < 9) → cells.getD idx.toNat none = none →
      (Board.place cells idx mark).2 = true ∧
      (Board.place cells idx mark).1.getD idx.toNat none = some mark ∧
      (∀ j : Nat, j ≠ idx.toNat →
        (Board.place cells idx mark).1.getD j none = cells.getD j none) ∧
      Board.place (Board.place cells idx mark).1 idx mark' =
        ((Board.place cells idx mark).1, false)) := by
  constructor
  · intro h
    unfold Board.place
    rcases h with h | h
    · rw [if_neg]
      intro hc
      exact h ⟨hc.1, hc.2.1⟩
    · rw [if_neg]
      intro hc
      exact h hc.2.2
  · intro hr he
    have hlt : idx.toNat < cells.length := by
      rw [h9]
      omega
    have hplace : Board.place cells idx mark = (cells.set idx.toNat (some mark), true) := by
      unfold Board.place
      rw [if_pos ⟨hr.1, hr.2, he⟩]
    refine ⟨by rw [hplace], ?_, ?_, ?_⟩
    · rw [hplace]
      exact getD_set_self cells idx.toNat (some mark) hlt
    · intro j hj
      rw [hplace]
      exact getD_set_ne cells idx.toNat j (some mark) (fun e => hj e.symm)
    · rw [hplace]
      unfold Board.place
      rw [if_neg]
      intro hc
      have := hc.2.2
      rw [getD_set_self cells idx.toNat (some mark) hlt] at this
      exact Option.noConfusion this

theorem claim_C3_witness :
    (Board.place emptyBoard 3 Mark.X).2 = true ∧
    (Board.place emptyBoard 3 Mark.X).1.getD 3 none = some Mark.X ∧
    Board.place (Board.place emptyBoard 3 Mark.X).1 3 Mark.O =
      ((Board.place emptyBoard 3 Mark.X).1, false) :=
  have h := (claim_C3 emptyBoard 3 Mark.X Mark.O (by decide)).2 (by decide) (by decide)
  ⟨h.1, h.2.1, h.2.2.2⟩

/-- Claim C7 (as stated, before correction check): terminal scoring of
the minimax evaluation — engine win scores `100 - depth`, opponent win
`-100 + depth`, draw `0`, and a non-terminal position at the cutoff
(`depth >= max_depth`) scores `0`. -/
theorem claim_C7 (ai hu : Mark) (board : Cells) (is_max : Bool)
    (alpha beta : Int) (d maxd : Nat) :
    (AI._check_winner board = WRes.win ai →
      AI._minimax ai hu board is_max alpha beta d maxd = ((100 : Int) - (d : Int), none)) ∧
    (ai ≠ hu → AI._check_winner board = WRes.win hu →
      AI._minimax ai hu board is_max alpha beta d maxd = ((-100 : Int) + (d : Int), none)) ∧
    (AI._check_winner board = WRes.draw →
      AI._minimax ai hu board is_max alpha beta d maxd = ((0 : Int), none)) ∧
    (AI._check_winner board = WRes.nores → maxd ≤ d →
      AI._minimax ai hu board is_max alpha beta d maxd = ((0 : Int), none)) := by
  refine ⟨fun h => ?_, fun hne h => ?_, fun h => ?_, fun h hd => ?_⟩ <;>
    (unfold AI._minimax minimaxAux; simp_all)
  exact fun e => absurd e.symm hne

theorem claim_C7_witness :
    AI._minimax Mark.O Mark.X oWonBoard true (-9999) 9999 0 9 = ((100 : Int), none) ∧
    AI._minimax Mark.O Mark.X wonBoard true (-9999) 9999 2 9 = ((-98 : Int), none) ∧
    AI._minimax Mark.O Mark.X drawBoard false (-9999) 9999 3 9 = ((0 : Int), none) ∧
    AI._minimax Mark.O Mark.X emptyBoard true (-9999) 9999 9 9 = ((0 : Int), none) :=
  ⟨(by simpa using ((claim_C7 Mark.O Mark.X oWonBoard true (-9999) 9999 0 9).1 (by decide))),
   (by simpa using ((claim_C7 Mark.O Mark.X wonBoard true (-9999) 9999 2 9).2.1
     (by decide) (by decide))),
   (by simpa using ((claim_C7 Mark.O Mark.X drawBoard false (-9999) 9999 3 9).2.2.1 (by decide))),
   (by simpa using ((claim_C7 Mark.O Mark.X emptyBoard true (-9999) 9999 9 9).2.2.2
     (by decide) (by decide)))⟩

/-- Claim C8: on the board `[X,X,None,None,O,None,None,None,None]` the
engine playing O at Impossible difficulty selects index 2, blocking the
immediate X win on the top row. -/
theorem claim_C8 :
    AI.best_move Mark.O Mark.X Difficulty.Impossible false (fun _ => 0) scenario2Board = some 2 := by
  decide

/-- Claim C4 (code check): in vs-AI mode, while the engine's move is
pending (`current_player = O`, delay armed), a board click at an empty
cell is NOT a no-op: `handle_click_board` places the mark `O` for the
clicking human and re-arms the AI delay, mutating the state.  This
contradicts the claim that a placement attempt outside the human's turn
is rejected with no state change. -/
theorem claim_C4_bug :
    (Game.handle_click_board pendingAIState 1 600).cells.getD 1 none = some Mark.O ∧
    (Game.handle_click_board pendingAIState 1 600).ai_delay_until = 940 ∧
    Game.handle_click_board pendingAIState 1 600 ≠ pendingAIState := by
  refine ⟨by decide, by decide, ?_⟩
  intro h
  have := congrArg (fun g => GameState.cells g) h
  simp only at this
  revert this
  decide

/-- The state-passing maximizing loop restores the board: if the
recursive search `fSt` leaves its board argument unchanged and computes
the value `f`, the loop also hands back the board it received — the
hypothetical mark placed at each tried cell is erased again on every
exit path, including the alpha-beta cutoff. -/
theorem abMaxLoopSt_eq (f : Cells → Int → Int → Int)
    (fSt : Cells → Int → Int → (Int × Option Nat) × Cells) (mark : Mark)
    (hf : ∀ b a bb, (fSt b a bb).2 = b ∧ (fSt b a bb).1.1 = f b a bb) :
    ∀ (board : Cells) (idxs : List Nat) (alpha beta bv : Int) (bm : Option Nat),
      abMaxLoopSt fSt mark board idxs alpha beta bv bm =
        (abMaxLoop f mark board idxs alpha beta bv bm, board)
  | board, [], alpha, beta, bv, bm => rfl
  | board, i :: rest, alpha, beta, bv, bm => by
    have ih := abMaxLoopSt_eq f fSt mark hf board rest
    simp only [abMaxLoopSt, abMaxLoop]
    by_cases h : board.getD i none = none
    · rw [if_pos h, if_pos h]
      obtain ⟨h2, h1⟩ := hf (board.set i (some mark)) alpha beta
      have hb2 : (fSt (board.set i (some mark)) alpha beta).2.set i none = board := by
        rw [h2, List.set_set]
        exact set_getD_none board i h
      rw [h1, hb2]
      repeat' split
      all_goals first
      | rfl
      | exact ih _ _ _ _
    · rw [if_neg h, if_neg h]
      exact ih alpha beta bv bm

/-- The state-passing minimizing loop restores the board (symmetric to
`abMaxLoopSt_eq`). -/
theorem abMinLoopSt_eq (f : Cells → Int → Int → Int)
    (fSt : Cells → Int → Int → (Int × Option Nat) × Cells) (mark : Mark)
    (hf : ∀ b a bb, (fSt b a bb).2 = b ∧ (fSt b a bb).1.1 = f b a bb) :
    ∀ (board : Cells) (idxs : List Nat) (alpha beta bv : Int) (bm : Option Nat),
      abMinLoopSt fSt mark board idxs alpha beta bv bm =
        (abMinLoop f mark board idxs alpha beta bv bm, board)
  | board, [], alpha, beta, bv, bm => rfl
  | board, i :: rest, alpha, beta, bv, bm => by
    have ih := abMinLoopSt_eq f fSt mark hf board rest
    simp only [abMinLoopSt, abMinLoop]
    by_cases h : board.getD i none = none
    · rw [if_pos h, if_pos h]
      obtain ⟨h2, h1⟩ := hf (board.set i (some mark)) alpha beta
      have hb2 : (fSt (board.set i (some mark)) alpha beta).2.set i none = board := by
        rw [h2, List.set_set]
        exact set_getD_none board i h
      rw [h1, hb2]
      repeat' split
      all_goals first
      | rfl
      | exact ih _ _ _ _
    · rw [if_neg h, if_neg h]
      exact ih alpha beta bv bm

/-- Every `minimaxStAux` call returns the board exactly as it received
it, and computes the same value and move as the value-semantics
`minimaxAux`. -/
theorem minimaxStAux_eq (ai hu : Mark) :
    ∀ (fuel : Nat) (board : Cells) (is_max : Bool) (alpha beta : Int) (depth maxd : Nat),
      minimaxStAux ai hu fuel board is_max alpha beta depth maxd =
        (minimaxAux ai hu fuel board is_max alpha beta depth maxd, board) := by
  intro fuel
  induction fuel with
  | zero =>
    intro board is_max alpha beta depth maxd
    simp only [minimaxStAux, minimaxAux]
    repeat' split
    all_goals rfl
  | succ fuel' ih =>
    intro board is_max alpha beta depth maxd
    have hf : ∀ (b : Cells) (a bb : Int),
        ((fun b a bb => minimaxStAux ai hu fuel' b false a bb (depth + 1) maxd) b a bb).2 = b ∧
        ((fun b a bb => minimaxStAux ai hu fuel' b false a bb (depth + 1) maxd) b a bb).1.1 =
          (fun b a bb => (minimaxAux ai hu fuel' b false a bb (depth + 1) maxd).1) b a bb := by
      intro b a bb
      simp only []
      rw [ih b false a bb (depth + 1) maxd]
      exact ⟨rfl, rfl⟩
    have hg : ∀ (b : Cells) (a bb : Int),
        ((fun b a bb => minimaxStAux ai hu fuel' b true a bb (depth + 1) maxd) b a bb).2 = b ∧
        ((fun b a bb => minimaxStAux ai hu fuel' b true a bb (depth + 1) maxd) b a bb).1.1 =
          (fun b a bb => (minimaxAux ai hu fuel' b true a bb (depth + 1) maxd).1) b a bb := by
      intro b a bb
      simp only []
      rw [ih b true a bb (depth + 1) maxd]
      exact ⟨rfl, rfl⟩
    simp only [minimaxStAux, minimaxAux]
    repeat' split
    all_goals first
    | rfl
    | exact abMinLoopSt_eq _ _ hu hg board (List.range 9) alpha beta 9999 none
    | exact abMaxLoopSt_eq _ _ ai hf board (List.range 9) alpha beta (-9999) none

/-- Claim C9: the search never mutates the list it is given — the
state-passing rendition of `AI._minimax` (each hypothetical placement
`board[i] = mark` matched by `board[i] = None` on every exit path,
pruned branches included) hands back its input board unchanged, and
computes exactly the value-semantics result.  `best_move` and
`Game.ai_turn` additionally pass defensive copies (`cells[:]`), so the
live `Board.cells` owned by the controller is never touched by the
search. -/
theorem claim_C9 (ai hu : Mark) (board : Cells) (is_max : Bool)
    (alpha beta : Int) (depth maxd : Nat) :
    AI._minimaxSt ai hu board is_max alpha beta depth maxd =
      (AI._minimax ai hu board is_max alpha beta depth maxd, board) :=
  minimaxStAux_eq ai hu (maxd - depth) board is_max alpha beta depth maxd

theorem FS_refl (v alpha beta : Int) : FS v v alpha beta :=
  ⟨fun _ => le_refl v, fun _ => le_refl v, fun _ _ => rfl⟩

theorem sfMax_ge_init (t : Cells → Int) (mark : Mark) (board : Cells) :
    ∀ (idxs : List Nat) (acc : Int), acc ≤ sfMax t mark board idxs acc
  | [], acc => le_refl acc
  | i :: rest, acc => by
    simp only [sfMax]
    split
    · exact le_trans (le_max_left acc _) (sfMax_ge_init t mark board rest _)
    · exact sfMax_ge_init t mark board rest acc

theorem sfMax_mono (t : Cells → Int) (mark : Mark) (board : Cells) :
    ∀ (idxs : List Nat) (a b : Int), a ≤ b →
      sfMax t mark board idxs a ≤ sfMax t mark board idxs b
  | [], a, b, h => h
  | i :: rest, a, b, h => by
    simp only [sfMax]
    split
    · exact sfMax_mono t mark board rest _ _ (max_le_max h (le_refl _))
    · exact sfMax_mono t mark board rest a b h

theorem sfMax_key (t : Cells → Int) (mark : Mark) (board : Cells) :
    ∀ (idxs : List Nat) (a b : Int), a ≤ b →
      sfMax t mark board idxs b ≤ max b (sfMax t mark board idxs a)
  | [], a, b, h => le_max_left b _
  | i :: rest, a, b, h => by
    simp only [sfMax]
    split
    · rename_i hemp
      have h1 : max a (t (board.set i (some mark))) ≤ max b (t (board.set i (some mark))) :=
        max_le_max h (le_refl _)
      have h2 := sfMax_key t mark board rest _ _ h1
      have h3 : t (board.set i (some mark)) ≤
          sfMax t mark board rest (max a (t (board.set i (some mark)))) :=
        le_trans (le_max_right a _) (sfMax_ge_init t mark board rest _)
      calc sfMax t mark board rest (max b (t (board.set i (some mark))))
          ≤ max (max b (t (board.set i (some mark))))
              (sfMax t mark board rest (max a (t (board.set i (some mark))))) := h2
        _ = max b (max (t (board.set i (some mark)))
              (sfMax t mark board rest (max a (t (board.set i (some mark)))))) := max_assoc ..
        _ = max b (sfMax t mark board rest (max a (t (board.set i (some mark))))) := by
              rw [max_eq_right h3]
    · exact sfMax_key t mark board rest a b h

theorem sfMin_le_init (t : Cells → Int) (mark : Mark) (board : Cells) :
    ∀ (idxs : List Nat) (acc : Int), sfMin t mark board idxs acc ≤ acc
  | [], acc => le_refl acc
  | i :: rest, acc => by
    simp only [sfMin]
    split
    · exact le_trans (sfMin_le_init t mark board rest _) (min_le_left acc _)
    · exact sfMin_le_init t mark board rest acc

theorem sfMin_mono (t : Cells → Int) (mark : Mark) (board : Cells) :
    ∀ (idxs : List Nat) (a b : Int), a ≤ b →
      sfMin t mark board idxs a ≤ sfMin t mark board idxs b
  | [], a, b, h => h
  | i :: rest, a, b, h => by
    simp only [sfMin]
    split
    · exact sfMin_mono t mark board rest _ _ (min_le_min h (le_refl _))
    · exact sfMin_mono t mark board rest a b h

theorem sfMin_key (t : Cells → Int) (mark : Mark) (board : Cells) :
    ∀ (idxs : List Nat) (a b : Int), a ≤ b →
      min a (sfMin t mark board idxs b) ≤ sfMin t mark board idxs a
  | [], a, b, h => min_le_left a b
  | i :: rest, a, b, h => by
    simp only [sfMin]
    split
    · rename_i hemp
      have h1 : min a (t (board.set i (some mark))) ≤ min b (t (board.set i (some mark))) :=
        min_le_min h (le_refl _)
      have h2 := sfMin_key t mark board rest _ _ h1
      have h3 : sfMin t mark board rest (min b (t (board.set i (some mark)))) ≤
          t (board.set i (some mark)) :=
        le_trans (sfMin_le_init t mark board rest _) (min_le_right b _)
      calc min a (sfMin t mark board rest (min b (t (board.set i (some mark)))))
          = min a (min (t (board.set i (some mark)))
              (sfMin t mark board rest (min b (t (board.set i (some mark)))))) := by
              rw [min_eq_right h3]
        _ = min (min a (t (board.set i (some mark))))
              (sfMin t mark board rest (min b (t (board.set i (some mark))))) := (min_assoc ..).symm
        _ ≤ sfMin t mark board rest (min a (t (board.set i (some mark)))) := h2
    · exact sfMin_key t mark board rest a b h

/-- Fail-soft property of the maximizing alpha-beta loop: if every child
search satisfies the fail-soft relation against its reference value, the
loop's running maximum satisfies it against the reference fold, and never
drops below the incoming best value. -/
theorem abMaxLoop_fs (f : Cells → Int → Int → Int) (t : Cells → Int) (mark : Mark)
    (board : Cells)
    (hf : ∀ (b : Cells) (a bb : Int), a < bb → -9999 ≤ a → bb ≤ 9999 →
      FS (f b a bb) (t b) a bb) :
    ∀ (idxs : List Nat) (alpha beta bv : Int) (bm : Option Nat),
      alpha < beta → -9999 ≤ alpha → beta ≤ 9999 → bv ≤ alpha →
      bv ≤ (abMaxLoop f mark board idxs alpha beta bv bm).1 ∧
      FS (abMaxLoop f mark board idxs alpha beta bv bm).1
        (sfMax t mark board idxs bv) alpha beta
  | [], alpha, beta, bv, bm, hab, ha, hb, hba => ⟨le_refl bv, FS_refl bv alpha beta⟩
  | i :: rest, alpha, beta, bv, bm, hab, ha, hb, hba => by
    simp only [abMaxLoop, sfMax]
    by_cases hemp : board.getD i none = none
    · simp only [if_pos hemp]
      have hchild := hf (board.set i (some mark)) alpha beta hab ha hb
      by_cases hup : bv < f (board.set i (some mark)) alpha beta
      · simp only [if_pos hup]
        by_cases hbreak : beta ≤ max alpha (f (board.set i (some mark)) alpha beta)
        · simp only [if_pos hbreak]
          have hbv : beta ≤ f (board.set i (some mark)) alpha beta := by
            rcases max_choice alpha (f (board.set i (some mark)) alpha beta) with h | h <;>
              rw [h] at hbreak
            · exact absurd hbreak (not_le.mpr hab)
            · exact hbreak
          refine ⟨le_of_lt hup, fun hv => absurd (lt_of_lt_of_le hab (le_trans hbv hv)) (lt_irrefl alpha), fun hv => ?_, fun h1 h2 => absurd (lt_of_le_of_lt hbv h2) (lt_irrefl _)⟩
          exact le_trans (le_trans (hchild.2.1 hbv) (le_max_right bv _))
            (sfMax_ge_init t mark board rest _)
        · simp only [if_neg hbreak]
          have hab' : max alpha (f (board.set i (some mark)) alpha beta) < beta :=
            not_le.mp hbreak
          have ih := abMaxLoop_fs f t mark board hf rest
            (max alpha (f (board.set i (some mark)) alpha beta)) beta
            (f (board.set i (some mark)) alpha beta) (some i)
            hab' (le_trans ha (le_max_left _ _)) hb (le_max_right _ _)
          obtain ⟨ihA, ihB⟩ := ih
          by_cases hva : f (board.set i (some mark)) alpha beta ≤ alpha
          · have hti : t (board.set i (some mark)) ≤ f (board.set i (some mark)) alpha beta :=
              hchild.1 hva
            have hmx : max alpha (f (board.set i (some mark)) alpha beta) = alpha :=
              max_eq_left hva
            rw [hmx] at ihA ihB ⊢
            have hmle : max bv (t (board.set i (some mark))) ≤
                f (board.set i (some mark)) alpha beta :=
              max_le (le_of_lt hup) hti
            have hTT : sfMax t mark board rest (max bv (t (board.set i (some mark)))) ≤
                sfMax t mark board rest (f (board.set i (some mark)) alpha beta) :=
              sfMax_mono t mark board rest _ _ hmle
            have hkey : sfMax t mark board rest (f (board.set i (some mark)) alpha beta) ≤
                max (f (board.set i (some mark)) alpha beta)
                  (sfMax t mark board rest (max bv (t (board.set i (some mark))))) :=
              sfMax_key t mark board rest _ _ hmle
            refine ⟨le_trans (le_of_lt hup) ihA, fun hv => le_trans hTT (ihB.1 hv),
              fun hv => ?_, fun h1 h2 => ?_⟩
            · have h4 := le_trans (ihB.2.1 hv) hkey
              have h5 : f (board.set i (some mark)) alpha beta <
                  (abMaxLoop f mark board rest alpha beta
                    (f (board.set i (some mark)) alpha beta) (some i)).1 :=
                lt_of_le_of_lt hva (lt_of_lt_of_le hab hv)
              rcases le_max_iff.mp h4 with h6 | h6
              · exact absurd (lt_of_le_of_lt h6 h5) (lt_irrefl _)
              · exact h6
            · have heq := ihB.2.2 h1 h2
              have hTv : sfMax t mark board rest (max bv (t (board.set i (some mark)))) ≤
                  (abMaxLoop f mark board rest alpha beta
                    (f (board.set i (some mark)) alpha beta) (some i)).1 := by
                rw [heq]
                exact hTT
              have h5 := le_trans (le_of_eq heq) hkey
              have h6 : f (board.set i (some mark)) alpha beta <
                  (abMaxLoop f mark board rest alpha beta
                    (f (board.set i (some mark)) alpha beta) (some i)).1 :=
                lt_of_le_of_lt hva h1
              rcases le_max_iff.mp h5 with h7 | h7
              · exact absurd (lt_of_le_of_lt h7 h6) (lt_irrefl _)
              · exact le_antisymm h7 hTv
          · have hva' : alpha < f (board.set i (some mark)) alpha beta := not_le.mp hva
            have hvb : f (board.set i (some mark)) alpha beta < beta :=
              lt_of_le_of_lt (le_max_right alpha _) hab'
            have hti : f (board.set i (some mark)) alpha beta = t (board.set i (some mark)) :=
              hchild.2.2 hva' hvb
            have hmx : max alpha (f (board.set i (some mark)) alpha beta) =
                f (board.set i (some mark)) alpha beta :=
              max_eq_right (le_of_lt hva')
            rw [hmx] at ihA ihB ⊢
            have hmbv : max bv (t (board.set i (some mark))) =
                f (board.set i (some mark)) alpha beta := by
              rw [← hti]
              exact max_eq_right (le_of_lt hup)
            rw [hmbv]
            refine ⟨le_trans (le_of_lt hup) ihA,
              fun hv => absurd (lt_of_lt_of_le hva' (le_trans ihA hv)) (lt_irrefl _),
              fun hv => ihB.2.1 hv, fun h1 h2 => ?_⟩
            by_cases hvr : f (board.set i (some mark)) alpha beta <
                (abMaxLoop f mark board rest (f (board.set i (some mark)) alpha beta) beta
                  (f (board.set i (some mark)) alpha beta) (some i)).1
            · exact ihB.2.2 hvr h2
            · have heq : (abMaxLoop f mark board rest (f (board.set i (some mark)) alpha beta)
                  beta (f (board.set i (some mark)) alpha beta) (some i)).1 =
                  f (board.set i (some mark)) alpha beta :=
                le_antisymm (not_lt.mp hvr) ihA
              have hT : sfMax t mark board rest (f (board.set i (some mark)) alpha beta) ≤
                  f (board.set i (some mark)) alpha beta := by
                have h8 := ihB.1 (le_of_eq heq)
                rw [heq] at h8
                exact h8
              rw [heq]
              exact le_antisymm (sfMax_ge_init t mark board rest _) hT
      · simp only [if_neg hup]
        have hvle : f (board.set i (some mark)) alpha beta ≤ bv := not_lt.mp hup
        have hti : t (board.set i (some mark)) ≤ f (board.set i (some mark)) alpha beta :=
          hchild.1 (le_trans hvle hba)
        have hmx : max alpha bv = alpha := max_eq_left hba
        rw [hmx]
        simp only [if_neg (not_le.mpr hab)]
        have hmbv : max bv (t (board.set i (some mark))) = bv :=
          max_eq_left (le_trans hti hvle)
        rw [hmbv]
        exact abMaxLoop_fs f t mark board hf rest alpha beta bv bm hab ha hb hba
    · simp only [if_neg hemp]
      exact abMaxLoop_fs f t mark board hf rest alpha beta bv bm hab ha hb hba

/-- Fail-soft property of the minimizing alpha-beta loop (mirror of
`abMaxLoop_fs`). -/
theorem abMinLoop_fs (f : Cells → Int → Int → Int) (t : Cells → Int) (mark : Mark)
    (board : Cells)
    (hf : ∀ (b : Cells) (a bb : Int), a < bb → -9999 ≤ a → bb ≤ 9999 →
      FS (f b a bb) (t b) a bb) :
    ∀ (idxs : List Nat) (alpha beta bv : Int) (bm : Option Nat),
      alpha < beta → -9999 ≤ alpha → beta ≤ 9999 → beta ≤ bv →
      (abMinLoop f mark board idxs alpha beta bv bm).1 ≤ bv ∧
      FS (abMinLoop f mark board idxs alpha beta bv bm).1
        (sfMin t mark board idxs bv) alpha beta
  | [], alpha, beta, bv, bm, hab, ha, hb, hbb => ⟨le_refl bv, FS_refl bv alpha beta⟩
  | i :: rest, alpha, beta, bv, bm, hab, ha, hb, hbb => by
    simp only [abMinLoop, sfMin]
    by_cases hemp : board.getD i none = none
    · simp only [if_pos hemp]
      have hchild := hf (board.set i (some mark)) alpha beta hab ha hb
      by_cases hup : f (board.set i (some mark)) alpha beta < bv
      · simp only [if_pos hup]
        by_cases hbreak : min beta (f (board.set i (some mark)) alpha beta) ≤ alpha
        · simp only [if_pos hbreak]
          have hva : f (board.set i (some mark)) alpha beta ≤ alpha := by
            rcases min_choice beta (f (board.set i (some mark)) alpha beta) with h | h <;>
              rw [h] at hbreak
            · exact absurd hbreak (not_le.mpr hab)
            · exact hbreak
          have hti : t (board.set i (some mark)) ≤ f (board.set i (some mark)) alpha beta :=
            hchild.1 hva
          refine ⟨le_of_lt hup, fun hv => ?_,
            fun hv => absurd (lt_of_lt_of_le (lt_of_le_of_lt hva hab) hv) (lt_irrefl _),
            fun h1 h2 => absurd (lt_of_lt_of_le h1 hva) (lt_irrefl _)⟩
          exact le_trans (le_trans (sfMin_le_init t mark board rest _) (min_le_right bv _)) hti
        · simp only [if_neg hbreak]
          have hab' : alpha < min beta (f (board.set i (some mark)) alpha beta) :=
            not_le.mp hbreak
          have ih := abMinLoop_fs f t mark board hf rest alpha
            (min beta (f (board.set i (some mark)) alpha beta))
            (f (board.set i (some mark)) alpha beta) (some i)
            hab' ha (le_trans (min_le_left _ _) hb) (min_le_right _ _)
          obtain ⟨ihA, ihB⟩ := ih
          by_cases hbv : beta ≤ f (board.set i (some mark)) alpha beta
          · have hti : f (board.set i (some mark)) alpha beta ≤ t (board.set i (some mark)) :=
              hchild.2.1 hbv
            have hmge : f (board.set i (some mark)) alpha beta ≤
                min bv (t (board.set i (some mark))) :=
              le_min (le_of_lt hup) hti
            have hTT : sfMin t mark board rest (f (board.set i (some mark)) alpha beta) ≤
                sfMin t mark board rest (min bv (t (board.set i (some mark)))) :=
              sfMin_mono t mark board rest _ _ hmge
            have hkey : min (f (board.set i (some mark)) alpha beta)
                (sfMin t mark board rest (min bv (t (board.set i (some mark))))) ≤
                sfMin t mark board rest (f (board.set i (some mark)) alpha beta) :=
              sfMin_key t mark board rest _ _ hmge
            refine ⟨le_trans ihA (le_of_lt hup), fun hv => ?_,
              fun hv => le_trans (ihB.2.1 (le_trans (min_le_left beta _) hv)) hTT,
              fun h1 h2 => ?_⟩
            · have h4 := le_trans hkey (ihB.1 hv)
              have h5 : (abMinLoop f mark board rest alpha
                  (min beta (f (board.set i (some mark)) alpha beta))
                  (f (board.set i (some mark)) alpha beta) (some i)).1 <
                  f (board.set i (some mark)) alpha beta :=
                lt_of_le_of_lt hv (lt_of_lt_of_le hab hbv)
              rcases min_choice (f (board.set i (some mark)) alpha beta)
                  (sfMin t mark board rest (min bv (t (board.set i (some mark))))) with h6 | h6 <;>
                rw [h6] at h4
              · exact absurd (lt_of_le_of_lt h4 h5) (lt_irrefl _)
              · exact h4
            · by_cases hvr : (abMinLoop f mark board rest alpha
                  (min beta (f (board.set i (some mark)) alpha beta))
                  (f (board.set i (some mark)) alpha beta) (some i)).1 <
                  f (board.set i (some mark)) alpha beta
              · have heq := ihB.2.2 h1 (lt_min h2 hvr)
                have hle : sfMin t mark board rest (min bv (t (board.set i (some mark)))) ≤
                    (abMinLoop f mark board rest alpha
                      (min beta (f (board.set i (some mark)) alpha beta))
                      (f (board.set i (some mark)) alpha beta) (some i)).1 := by
                  have h4 := le_trans hkey (le_of_eq heq.symm)
                  rcases min_choice (f (board.set i (some mark)) alpha beta)
                      (sfMin t mark board rest
                        (min bv (t (board.set i (some mark))))) with h6 | h6 <;>
                    rw [h6] at h4
                  · exact absurd (lt_of_le_of_lt h4 hvr) (lt_irrefl _)
                  · exact h4
                refine le_antisymm ?_ hle
                rw [heq]
                exact hTT
              · have hrv : (abMinLoop f mark board rest alpha
                    (min beta (f (board.set i (some mark)) alpha beta))
                    (f (board.set i (some mark)) alpha beta) (some i)).1 =
                    f (board.set i (some mark)) alpha beta :=
                  le_antisymm ihA (not_lt.mp hvr)
                exact absurd (lt_of_le_of_lt (hbv.trans (le_of_eq hrv.symm)) h2) (lt_irrefl _)
          · have hvb : f (board.set i (some mark)) alpha beta < beta := not_le.mp hbv
            have hva : alpha < f (board.set i (some mark)) alpha beta :=
              lt_of_lt_of_le hab' (min_le_right _ _)
            have hti : f (board.set i (some mark)) alpha beta = t (board.set i (some mark)) :=
              hchild.2.2 hva hvb
            have hmx : min beta (f (board.set i (some mark)) alpha beta) =
                f (board.set i (some mark)) alpha beta :=
              min_eq_right (le_of_lt hvb)
            rw [hmx] at ihA ihB ⊢
            have hmbv : min bv (t (board.set i (some mark))) =
                f (board.set i (some mark)) alpha beta := by
              rw [← hti]
              exact min_eq_right (le_of_lt hup)
            rw [hmbv]
            refine ⟨le_trans ihA (le_of_lt hup), fun hv => ihB.1 hv,
              fun hv => absurd (lt_of_le_of_lt (hv.trans ihA) hvb) (lt_irrefl _),
              fun h1 h2 => ?_⟩
            by_cases hvr : (abMinLoop f mark board rest alpha
                (f (board.set i (some mark)) alpha beta)
                (f (board.set i (some mark)) alpha beta) (some i)).1 <
                f (board.set i (some mark)) alpha beta
            · exact ihB.2.2 h1 hvr
            · have heq : (abMinLoop f mark board rest alpha
                  (f (board.set i (some mark)) alpha beta)
                  (f (board.set i (some mark)) alpha beta) (some i)).1 =
                  f (board.set i (some mark)) alpha beta :=
                le_antisymm ihA (not_lt.mp hvr)
              have hT : f (board.set i (some mark)) alpha beta ≤
                  sfMin t mark board rest (f (board.set i (some mark)) alpha beta) := by
                have h8 := ihB.2.1 (le_of_eq heq.symm)
                rw [heq] at h8
                exact h8
              rw [heq]
              exact le_antisymm hT (sfMin_le_init t mark board rest _)
      · simp only [if_neg hup]
        have hvle : bv ≤ f (board.set i (some mark)) alpha beta := not_lt.mp hup
        have hti : f (board.set i (some mark)) alpha beta ≤ t (board.set i (some mark)) :=
          hchild.2.1 (le_trans hbb hvle)
        have hmx : min beta bv = beta := min_eq_left hbb
        rw [hmx]
        simp only [if_neg (not_le.mpr hab)]
        have hmbv : min bv (t (board.set i (some mark))) = bv :=
          min_eq_left (le_trans hvle hti)
        rw [hmbv]
        exact abMinLoop_fs f t mark board hf rest alpha beta bv bm hab ha hb hbb
    · simp only [if_neg hemp]
      exact abMinLoop_fs f t mark board hf rest alpha beta bv bm hab ha hb hbb

/-- Fail-soft property of the full pruned search against the unpruned
reference value, for every window. -/
theorem minimax_fs (ai hu : Mark) :
    ∀ (fuel : Nat) (board : Cells) (is_max : Bool) (alpha beta : Int) (depth maxd : Nat),
      alpha < beta → -9999 ≤ alpha → beta ≤ 9999 →
      FS (minimaxAux ai hu fuel board is_max alpha beta depth maxd).1
        (specVal ai hu fuel board is_max depth maxd) alpha beta := by
  intro fuel
  induction fuel with
  | zero =>
    intro board is_max alpha beta depth maxd hab ha hb
    simp only [minimaxAux, specVal]
    repeat' split
    all_goals exact FS_refl _ alpha beta
  | succ fuel' ih =>
    intro board is_max alpha beta depth maxd hab ha hb
    simp only [minimaxAux, specVal]
    repeat' split
    all_goals first
    | exact FS_refl _ alpha beta
    | exact (abMaxLoop_fs _ _ ai board
        (fun b a bb h1 h2 h3 => ih b false a bb (depth + 1) maxd h1 h2 h3)
        (List.range 9) alpha beta (-9999) none hab ha hb ha).2
    | exact (abMinLoop_fs _ _ hu board
        (fun b a bb h1 h2 h3 => ih b true a bb (depth + 1) maxd h1 h2 h3)
        (List.range 9) alpha beta 9999 none hab ha hb hb).2

/-- If the three winner checks and the draw check all fail and the two
marks differ, the check returned in-progress. -/
theorem wres_nores (w : WRes) (ai hu : Mark) (hne : ai ≠ hu)
    (h1 : ¬ w = WRes.win ai) (h2 : ¬ w = WRes.win hu) (h3 : ¬ w = WRes.draw) :
    w = WRes.nores := by
  cases w with
  | win m => cases m <;> cases ai <;> cases hu <;> simp_all
  | draw => exact absurd rfl h3
  | nores => rfl

/-- A 9-cell board that is neither won nor full has an empty cell among
indices 0..8. -/
theorem exists_empty_of_nores (cells : Cells) (h9 : cells.length = 9)
    (h : AI._check_winner cells = WRes.nores) :
    ∃ i ∈ List.range 9, cells.getD i none = none := by
  unfold AI._check_winner at h
  have hall : cells.all Option.isSome = false := by
    rcases hs : checkScan cells WIN_COMBINATIONS with _ | m
    · rw [hs] at h
      by_contra hc
      have : cells.all Option.isSome = true := by
        cases hx : cells.all Option.isSome
        · exact absurd hx hc
        · rfl
      rw [this] at h
      simp at h
    · rw [hs] at h
      simp at h
  rw [List.all_eq_false] at hall
  obtain ⟨x, hx, hpx⟩ := hall
  obtain ⟨n, hn, hcn⟩ := List.mem_iff_getElem.mp hx
  refine ⟨n, List.mem_range.mpr (by omega), ?_⟩
  have hxnone : x = none := by
    cases x
    · rfl
    · simp at hpx
  simp only [List.getD_eq_getElem?_getD, List.getElem?_eq_getElem hn, hcn, hxnone]
  rfl

/-- Bound on the loop's value: if every tried child value lies in
`[-200, 200]` and the running best does not exceed `200`, and either the
running best is already at least `-200` or some remaining cell is empty,
the final value lies in `[-200, 200]`. -/
theorem abMaxLoop_bound (f : Cells → Int → Int → Int) (mark : Mark) (board : Cells)
    (hf : ∀ (i : Nat) (a bb : Int), -200 ≤ f (board.set i (some mark)) a bb ∧
      f (board.set i (some mark)) a bb ≤ 200) :
    ∀ (idxs : List Nat) (alpha beta bv : Int) (bm : Option Nat), bv ≤ 200 →
      ((-200 ≤ bv) ∨ ∃ i ∈ idxs, board.getD i none = none) →
      -200 ≤ (abMaxLoop f mark board idxs alpha beta bv bm).1 ∧
      (abMaxLoop f mark board idxs alpha beta bv bm).1 ≤ 200
  | [], alpha, beta, bv, bm, hb2, hdis => by
    rcases hdis with h | ⟨i, hi, _⟩
    · exact ⟨h, hb2⟩
    · exact absurd hi (List.not_mem_nil i)
  | i :: rest, alpha, beta, bv, bm, hb2, hdis => by
    simp only [abMaxLoop]
    by_cases hemp : board.getD i none = none
    · simp only [if_pos hemp]
      obtain ⟨hl, hr⟩ := hf i alpha beta
      by_cases hup : bv < f (board.set i (some mark)) alpha beta
      · simp only [if_pos hup]
        split
        · exact ⟨hl, hr⟩
        · exact abMaxLoop_bound f mark board hf rest _ beta _ _ hr (Or.inl hl)
      · simp only [if_neg hup]
        have hge : -200 ≤ bv := le_trans hl (not_lt.mp hup)
        split
        · exact ⟨hge, hb2⟩
        · exact abMaxLoop_bound f mark board hf rest _ beta bv bm hb2 (Or.inl hge)
    · simp only [if_neg hemp]
      refine abMaxLoop_bound f mark board hf rest alpha beta bv bm hb2 ?_
      rcases hdis with h | ⟨j, hj, hje⟩
      · exact Or.inl h
      · rcases List.mem_cons.mp hj with rfl | hj'
        · exact absurd hje hemp
        · exact Or.inr ⟨j, hj', hje⟩

/-- Mirror of `abMaxLoop_bound` for the minimizing loop. -/
theorem abMinLoop_bound (f : Cells → Int → Int → Int) (mark : Mark) (board : Cells)
    (hf : ∀ (i : Nat) (a bb : Int), -200 ≤ f (board.set i (some mark)) a bb ∧
      f (board.set i (some mark)) a bb ≤ 200) :
    ∀ (idxs : List Nat) (alpha beta bv : Int) (bm : Option Nat), -200 ≤ bv →
      ((bv ≤ 200) ∨ ∃ i ∈ idxs, board.getD i none = none) →
      -200 ≤ (abMinLoop f mark board idxs alpha beta bv bm).1 ∧
      (abMinLoop f mark board idxs alpha beta bv bm).1 ≤ 200
  | [], alpha, beta, bv, bm, hb2, hdis => by
    rcases hdis with h | ⟨i, hi, _⟩
    · exact ⟨hb2, h⟩
    · exact absurd hi (List.not_mem_nil i)
  | i :: rest, alpha, beta, bv, bm, hb2, hdis => by
    simp only [abMinLoop]
    by_cases hemp : board.getD i none = none
    · simp only [if_pos hemp]
      obtain ⟨hl, hr⟩ := hf i alpha beta
      by_cases hup : f (board.set i (some mark)) alpha beta < bv
      · simp only [if_pos hup]
        split
        · exact ⟨hl, hr⟩
        · exact abMinLoop_bound f mark board hf rest alpha _ _ _ hl (Or.inl hr)
      · simp only [if_neg hup]
        have hge : bv ≤ 200 := le_trans (not_lt.mp hup) hr
        split
        · exact ⟨hb2, hge⟩
        · exact abMinLoop_bound f mark board hf rest alpha _ bv bm hb2 (Or.inl hge)
    · simp only [if_neg hemp]
      refine abMinLoop_bound f mark board hf rest alpha beta bv bm hb2 ?_
      rcases hdis with h | ⟨j, hj, hje⟩
      · exact Or.inl h
      · rcases List.mem_cons.mp hj with rfl | hj'
        · exact absurd hje hemp
        · exact Or.inr ⟨j, hj', hje⟩

/-- The pruned search value always lies in `[-200, 200]` on 9-cell boards
(with distinct marks and depth within the cutoff). -/
theorem minimax_bound (ai hu : Mark) (hne : ai ≠ hu) :
    ∀ (fuel : Nat) (board : Cells) (is_max : Bool) (alpha beta : Int) (depth maxd : Nat),
      board.length = 9 → depth ≤ maxd → maxd ≤ 9 →
      -200 ≤ (minimaxAux ai hu fuel board is_max alpha beta depth maxd).1 ∧
      (minimaxAux ai hu fuel board is_max alpha beta depth maxd).1 ≤ 200 := by
  intro fuel
  induction fuel with
  | zero =>
    intro board is_max alpha beta depth maxd h9 hdm h99
    have hd9 : (depth : Int) ≤ 9 := by exact_mod_cast le_trans hdm h99
    simp only [minimaxAux]
    repeat' split
    all_goals constructor
    all_goals omega
  | succ fuel' ih =>
    intro board is_max alpha beta depth maxd h9 hdm h99
    have hd9 : (depth : Int) ≤ 9 := by exact_mod_cast le_trans hdm h99
    simp only [minimaxAux]
    repeat' split
    all_goals try (constructor <;> omega)
    all_goals rename_i hw1 hw2 hw3 hw4 hmax
    all_goals have hno : AI._check_winner board = WRes.nores :=
      wres_nores _ ai hu hne hw1 hw2 hw3
    all_goals have hdlt : depth + 1 ≤ maxd := by omega
    all_goals have hex := exists_empty_of_nores board h9 hno
    · exact abMaxLoop_bound _ ai board
        (fun i a bb => ih (board.set i (some ai)) false a bb (depth + 1) maxd
          (by simp [h9]) hdlt h99)
        (List.range 9) alpha beta (-9999) none (by norm_num) (Or.inr hex)
    · exact abMinLoop_bound _ hu board
        (fun i a bb => ih (board.set i (some hu)) true a bb (depth + 1) maxd
          (by simp [h9]) hdlt h99)
        (List.range 9) alpha beta 9999 none (by norm_num) (Or.inr hex)

/-- At the root window `(bv, 9999)` with the running alpha equal to the
running best value, the pruned maximizing loop computes exactly the
reference fold: the first strictly-improving (lowest-index) move and the
maximal unpruned child value. -/
theorem abMaxLoop_root (f : Cells → Int → Int → Int) (t : Cells → Int) (mark : Mark)
    (board : Cells)
    (hfs : ∀ (i : Nat) (a bb : Int), a < bb → -9999 ≤ a → bb ≤ 9999 →
      FS (f (board.set i (some mark)) a bb) (t (board.set i (some mark))) a bb)
    (hbound : ∀ (i : Nat) (a bb : Int), -200 ≤ f (board.set i (some mark)) a bb ∧
      f (board.set i (some mark)) a bb ≤ 200) :
    ∀ (idxs : List Nat) (bv : Int) (bm : Option Nat), -9999 ≤ bv → bv < 9999 →
      abMaxLoop f mark board idxs bv 9999 bv bm =
        specRootFold t mark board idxs (bv, bm)
  | [], bv, bm, h1, h2 => rfl
  | i :: rest, bv, bm, h1, h2 => by
    simp only [abMaxLoop, specRootFold]
    by_cases hemp : board.getD i none = none
    · simp only [if_pos hemp]
      have hFS := hfs i bv 9999 h2 h1 (le_refl 9999)
      by_cases hup : bv < f (board.set i (some mark)) bv 9999
      · have hval200 := (hbound i bv 9999).2
        have hvallo := (hbound i bv 9999).1
        have hti : f (board.set i (some mark)) bv 9999 = t (board.set i (some mark)) :=
          hFS.2.2 hup (lt_of_le_of_lt hval200 (by norm_num))
        simp only [if_pos hup]
        have hmx : max bv (f (board.set i (some mark)) bv 9999) =
            f (board.set i (some mark)) bv 9999 :=
          max_eq_right (le_of_lt hup)
        rw [hmx]
        have hnb : ¬ (9999 : Int) ≤ f (board.set i (some mark)) bv 9999 :=
          not_le.mpr (lt_of_le_of_lt hval200 (by norm_num))
        simp only [if_neg hnb]
        rw [if_pos (show (bv, bm).1 < t (board.set i (some mark)) from hti ▸ hup)]
        rw [show ((t (board.set i (some mark)), some i) : Int × Option Nat) =
          (f (board.set i (some mark)) bv 9999, some i) from by rw [hti]]
        exact abMaxLoop_root f t mark board hfs hbound rest
          (f (board.set i (some mark)) bv 9999) (some i)
          (le_trans (by norm_num) hvallo) (lt_of_le_of_lt hval200 (by norm_num))
      · have hvle := not_lt.mp hup
        have htile : t (board.set i (some mark)) ≤ f (board.set i (some mark)) bv 9999 :=
          hFS.1 hvle
        simp only [if_neg hup]
        rw [max_self bv]
        simp only [if_neg (not_le.mpr (show bv < (9999 : Int) from h2))]
        rw [if_neg (show ¬ (bv, bm).1 < t (board.set i (some mark)) from
          not_lt.mpr (le_trans htile hvle))]
        exact abMaxLoop_root f t mark board hfs hbound rest bv bm h1 h2
    · simp only [if_neg hemp]
      exact abMaxLoop_root f t mark board hfs hbound rest bv bm h1 h2

/-- The root call of `AI._minimax` (full window, depth 0) on a 9-cell
in-progress board equals the reference root fold over the unpruned child
values at depth 1. -/
theorem minimax_root (ai hu : Mark) (hne : ai ≠ hu) (cells : Cells) (maxd : Nat)
    (h9 : cells.length = 9) (hn : AI._check_winner cells = WRes.nores)
    (h0 : 0 < maxd) (h99 : maxd ≤ 9) :
    AI._minimax ai hu cells true (-9999) 9999 0 maxd =
      specRootFold (fun b => specVal ai hu (maxd - 1) b false 1 maxd) ai cells
        (List.range 9) ((-9999 : Int), none) := by
  obtain ⟨m, rfl⟩ : ∃ m, maxd = m + 1 := ⟨maxd - 1, (Nat.succ_pred_eq_of_pos h0).symm⟩
  unfold AI._minimax
  have hfuel : m + 1 - 0 = m + 1 := rfl
  rw [hfuel]
  simp only [minimaxAux, hn]
  have hnw1 : ¬ WRes.nores = WRes.win ai := by simp
  have hnw2 : ¬ WRes.nores = WRes.win hu := by simp
  have hnw3 : ¬ WRes.nores = WRes.draw := by simp
  rw [if_neg hnw1, if_neg hnw2, if_neg hnw3, if_neg (show ¬ m + 1 ≤ 0 by omega)]
  exact abMaxLoop_root _ _ ai cells
    (fun i a bb ha hb hc =>
      minimax_fs ai hu m (cells.set i (some ai)) false a bb 1 (m + 1) ha hb hc)
    (fun i a bb =>
      minimax_bound ai hu hne m (cells.set i (some ai)) false a bb 1 (m + 1)
        (by simp [h9]) (by omega) h99)
    (List.range 9) (-9999) none (le_refl _) (by norm_num)

/-- Characterization of the reference root fold: its value never drops
below the seed, dominates every empty-cell child value, and is either
the untouched seed pair or an achieved child (whose index it reports). -/
theorem specRootFold_spec (t : Cells → Int) (mark : Mark) (board : Cells) :
    ∀ (idxs : List Nat) (p : Int × Option Nat),
      p.1 ≤ (specRootFold t mark board idxs p).1 ∧
      (∀ i ∈ idxs, board.getD i none = none →
        t (board.set i (some mark)) ≤ (specRootFold t mark board idxs p).1) ∧
      (specRootFold t mark board idxs p = p ∨
        ∃ i ∈ idxs, board.getD i none = none ∧
          (specRootFold t mark board idxs p).2 = some i ∧
          (specRootFold t mark board idxs p).1 = t (board.set i (some mark)))
  | [], p => ⟨le_refl _, fun i hi => absurd hi (List.not_mem_nil i), Or.inl rfl⟩
  | i :: rest, p => by
    simp only [specRootFold]
    by_cases hemp : board.getD i none = none
    · simp only [if_pos hemp]
      by_cases hlt : p.1 < t (board.set i (some mark))
      · simp only [if_pos hlt]
        obtain ⟨ih1, ih2, ih3⟩ := specRootFold_spec t mark board rest
          (t (board.set i (some mark)), some i)
        refine ⟨le_trans (le_of_lt hlt) ih1, ?_, ?_⟩
        · intro j hj hje
          rcases List.mem_cons.mp hj with rfl | hj'
          · exact ih1
          · exact ih2 j hj' hje
        · rcases ih3 with he | ⟨j, hj, hj2, hj3, hj4⟩
          · exact Or.inr ⟨i, List.mem_cons_self i rest, hemp, by rw [he], by rw [he]⟩
          · exact Or.inr ⟨j, List.mem_cons_of_mem i hj, hj2, hj3, hj4⟩
      · simp only [if_neg hlt]
        obtain ⟨ih1, ih2, ih3⟩ := specRootFold_spec t mark board rest p
        refine ⟨ih1, ?_, ?_⟩
        · intro j hj hje
          rcases List.mem_cons.mp hj with rfl | hj'
          · exact le_trans (not_lt.mp hlt) ih1
          · exact ih2 j hj' hje
        · rcases ih3 with he | ⟨j, hj, hj2, hj3, hj4⟩
          · exact Or.inl he
          · exact Or.inr ⟨j, List.mem_cons_of_mem i hj, hj2, hj3, hj4⟩
    · simp only [if_neg hemp]
      obtain ⟨ih1, ih2, ih3⟩ := specRootFold_spec t mark board rest p
      refine ⟨ih1, ?_, ?_⟩
      · intro j hj hje
        rcases List.mem_cons.mp hj with rfl | hj'
        · exact absurd hje hemp
        · exact ih2 j hj' hje
      · rcases ih3 with he | ⟨j, hj, hj2, hj3, hj4⟩
        · exact Or.inl he
        · exact Or.inr ⟨j, List.mem_cons_of_mem i hj, hj2, hj3, hj4⟩

/-- The unpruned reference value also lies in `[-200, 200]`: it agrees
with the pruned value on the full window. -/
theorem specVal_bound (ai hu : Mark) (hne : ai ≠ hu) (fuel : Nat) (b : Cells)
    (is_max : Bool) (depth maxd : Nat) (h9 : b.length = 9) (hdm : depth ≤ maxd)
    (h99 : maxd ≤ 9) :
    -200 ≤ specVal ai hu fuel b is_max depth maxd ∧
    specVal ai hu fuel b is_max depth maxd ≤ 200 := by
  have hb := minimax_bound ai hu hne fuel b is_max (-9999) 9999 depth maxd h9 hdm h99
  have hfs := minimax_fs ai hu fuel b is_max (-9999) 9999 depth maxd (by norm_num)
    (le_refl _) (le_refl _)
  have heq := hfs.2.2 (lt_of_lt_of_le (by norm_num) hb.1)
    (lt_of_le_of_lt hb.2 (by norm_num))
  rw [← heq]
  exact hb

/-- The `available` list of `best_move` is non-empty on a 9-cell
in-progress board. -/
theorem available_ne (cells : Cells) (h9 : cells.length = 9)
    (hn : AI._check_winner cells = WRes.nores) :
    ((List.range 9).filter (fun i => decide (cells.getD i none = none))).isEmpty = false := by
  obtain ⟨i, hi9, hie⟩ := exists_empty_of_nores cells h9 hn
  have hmem : i ∈ (List.range 9).filter (fun i => decide (cells.getD i none = none)) :=
    List.mem_filter.mpr ⟨hi9, by simpa using hie⟩
  cases hfe : ((List.range 9).filter (fun i => decide (cells.getD i none = none))).isEmpty
  · rfl
  · rw [List.isEmpty_iff] at hfe
    rw [hfe] at hmem
    exact absurd hmem (List.not_mem_nil i)

/-- On a 9-cell in-progress board the root fold reports a move: the first
empty cell's reference value already beats the seed `-9999`. -/
theorem specRootFold_isSome (ai hu : Mark) (hne : ai ≠ hu) (cells : Cells) (maxd : Nat)
    (h9 : cells.length = 9) (hn : AI._check_winner cells = WRes.nores)
    (h0 : 0 < maxd) (h99 : maxd ≤ 9) :
    ∃ j, (specRootFold (fun b => specVal ai hu (maxd - 1) b false 1 maxd) ai cells
        (List.range 9) ((-9999 : Int), none)).2 = some j ∧
      j ∈ List.range 9 ∧ cells.getD j none = none ∧
      (specRootFold (fun b => specVal ai hu (maxd - 1) b false 1 maxd) ai cells
        (List.range 9) ((-9999 : Int), none)).1 =
        specVal ai hu (maxd - 1) (cells.set j (some ai)) false 1 maxd := by
  obtain ⟨i, hi9, hie⟩ := exists_empty_of_nores cells h9 hn
  obtain ⟨s1, s2, s3⟩ := specRootFold_spec
    (fun b => specVal ai hu (maxd - 1) b false 1 maxd) ai cells (List.range 9)
    ((-9999 : Int), none)
  have hcb := specVal_bound ai hu hne (maxd - 1) (cells.set i (some ai)) false 1 maxd
    (by simp [h9]) h0 h99
  have hgt : (-9999 : Int) <
      (specRootFold (fun b => specVal ai hu (maxd - 1) b false 1 maxd) ai cells
        (List.range 9) ((-9999 : Int), none)).1 :=
    lt_of_lt_of_le (by norm_num)
      (le_trans hcb.1 (s2 i hi9 hie))
  rcases s3 with he | ⟨j, hj, hj2, hj3, hj4⟩
  · rw [he] at hgt
    exact absurd hgt (lt_irrefl _)
  · exact ⟨j, hj3, hj, hj2, hj4⟩

/-- Claim C5 (amended): on a 9-cell board with at least one empty cell
and no already-completed winning triple (an in-progress position),
`best_move` returns a move at every difficulty, for any draw of the
injected random source, and for the actual engine configuration
(distinct marks). -/
theorem claim_C5 (ai hu : Mark) (hne : ai ≠ hu) (difficulty : Difficulty) (coin : Bool)
    (rchoice : List Nat → Nat) (cells : Cells) (h9 : cells.length = 9)
    (hn : AI._check_winner cells = WRes.nores) :
    (AI.best_move ai hu difficulty coin rchoice cells).isSome = true := by
  have hav := available_ne cells h9 hn
  cases difficulty with
  | Easy =>
    simp only [AI.best_move, hav]
    rw [if_neg Bool.false_ne_true]
    rfl
  | Medium =>
    simp only [AI.best_move, hav]
    rw [if_neg Bool.false_ne_true]
    cases coin
    · rw [if_neg Bool.false_ne_true]
      cases h : (AI._minimax ai hu cells true (-9999) 9999 0 4).2 <;> rfl
    · rw [if_pos rfl]
      rfl
  | Impossible =>
    obtain ⟨j, hj, hmem, hje, hval⟩ :=
      specRootFold_isSome ai hu hne cells 9 h9 hn (by norm_num) (le_refl 9)
    have hroot := minimax_root ai hu hne cells 9 h9 hn (by norm_num) (le_refl 9)
    simp only [AI.best_move, hav]
    rw [if_neg Bool.false_ne_true, hroot, hj]
    rfl

theorem claim_C5_witness :
    (AI.best_move Mark.O Mark.X Difficulty.Impossible false (fun _ => 0)
      scenario2Board).isSome = true :=
  claim_C5 Mark.O Mark.X (by decide) Difficulty.Impossible false (fun _ => 0)
    scenario2Board (by decide) (by decide)

/-- Claim C5 fails as frozen: on a board where X has already completed a
row but four cells remain empty, `best_move` at Impossible returns
`None` (the root terminal check short-circuits the move search). -/
theorem claim_C5_cex :
    AI.best_move Mark.O Mark.X Difficulty.Impossible false (fun _ => 0) wonBoard = none ∧
    wonBoard.getD 5 none = none := by
  constructor
  · decide
  · decide

/-- Claim C6 (amended): on a 9-cell board with at least one empty cell
and no already-completed winning triple, with the Medium random branch
forced off, `best_move` at Impossible and Medium equals the reference
choice — the lowest index among empty cells (tried in ascending order
0..8) maximizing the unpruned minimax value at the respective depth
cutoff.  Pruning never changes the selected move, and the result is
independent of the injected random source, hence deterministic. -/
theorem claim_C6 (ai hu : Mark) (hne : ai ≠ hu) (cells : Cells) (rchoice : List Nat → Nat)
    (h9 : cells.length = 9) (hn : AI._check_winner cells = WRes.nores) :
    AI.best_move ai hu Difficulty.Impossible false rchoice cells = specChoose ai hu cells 9 ∧
    AI.best_move ai hu Difficulty.Medium false rchoice cells = specChoose ai hu cells 4 := by
  have hav := available_ne cells h9 hn
  constructor
  · have hroot := minimax_root ai hu hne cells 9 h9 hn (by norm_num) (le_refl 9)
    simp only [AI.best_move, hav]
    rw [if_neg Bool.false_ne_true, hroot]
    rfl
  · have hroot := minimax_root ai hu hne cells 4 h9 hn (by norm_num) (by norm_num)
    obtain ⟨j, hj, hmem, hje, hval⟩ :=
      specRootFold_isSome ai hu hne cells 4 h9 hn (by norm_num) (by norm_num)
    simp only [AI.best_move, hav]
    rw [if_neg Bool.false_ne_true, if_neg Bool.false_ne_true, hroot, hj]
    unfold specChoose
    rw [hj]

theorem claim_C6_witness :
    AI.best_move Mark.O Mark.X Difficulty.Impossible false (fun _ => 0) scenario2Board =
      specChoose Mark.O Mark.X scenario2Board 9 ∧
    AI.best_move Mark.O Mark.X Difficulty.Medium false (fun _ => 0) scenario2Board =
      specChoose Mark.O Mark.X scenario2Board 4 :=
  claim_C6 Mark.O Mark.X (by decide) scenario2Board (fun _ => 0) (by decide) (by decide)

/-- Claim C6 fails as frozen for boards that already contain a completed
triple: on such a board (four empty cells, all tied at the same
minimax value) Impossible `best_move` returns `None` instead of the
lowest equally-scored index 5 that the reference choice reports. -/
theorem claim_C6_cex :
    AI.best_move Mark.O Mark.X Difficulty.Impossible false (fun _ => 0) wonBoard = none ∧
    wonBoard.getD 5 none = none ∧
    specChoose Mark.O Mark.X wonBoard 9 = some 5 := by
  refine ⟨by decide, by decide, by decide⟩

theorem list_all_congr (p q : Nat → Bool) :
    ∀ l : List Nat, (∀ a ∈ l, p a = q a) → l.all p = l.all q
  | [], _ => rfl
  | a :: l, h => by
    simp only [List.all_cons]
    rw [h a (List.mem_cons_self a l), list_all_congr p q l
      (fun b hb => h b (List.mem_cons_of_mem a hb))]

theorem list_any_congr (p q : Nat → Bool) :
    ∀ l : List Nat, (∀ a ∈ l, p a = q a) → l.any p = l.any q
  | [], _ => rfl
  | a :: l, h => by
    simp only [List.any_cons]
    rw [h a (List.mem_cons_self a l), list_any_congr p q l
      (fun b hb => h b (List.mem_cons_of_mem a hb))]

theorem emptiesCount_le9 (cells : Cells) : emptiesCount cells ≤ 9 := by
  unfold emptiesCount
  calc ((List.range 9).filter (fun i => decide (cells.getD i none = none))).length
      ≤ (List.range 9).length := List.length_filter_le _ _
    _ = 9 := List.length_range 9

/-- A full 9-cell board (no empty position among 0..8) is never reported
in-progress. -/
theorem full_no_nores (cells : Cells) (h9 : cells.length = 9)
    (h0 : emptiesCount cells = 0) : AI._check_winner cells ≠ WRes.nores := by
  intro hn
  obtain ⟨i, hi9, hie⟩ := exists_empty_of_nores cells h9 hn
  have hmem : i ∈ (List.range 9).filter (fun i => decide (cells.getD i none = none)) :=
    List.mem_filter.mpr ⟨hi9, by simpa using hie⟩
  have := List.length_pos.mpr (List.ne_nil_of_mem hmem)
  unfold emptiesCount at h0
  omega

theorem emptiesCount_pos (cells : Cells) (h9 : cells.length = 9)
    (hn : AI._check_winner cells = WRes.nores) : 1 ≤ emptiesCount cells := by
  by_contra h
  exact full_no_nores cells h9 (by omega) hn

/-- Filtering a duplicate-free list after one element's predicate value
flips from true to false drops exactly that element. -/
theorem filter_flip_len (p q : Nat → Bool) (i : Nat) :
    ∀ l : List Nat, l.Nodup → i ∈ l → (∀ j ∈ l, j ≠ i → p j = q j) →
      p i = true → q i = false →
      (l.filter q).length + 1 = (l.filter p).length
  | [], _, hi, _, _, _ => absurd hi (List.not_mem_nil i)
  | a :: l, hnd, hi, hpq, hp, hq => by
    rcases List.mem_cons.mp hi with rfl | hi'
    · have hnotin : i ∉ l := (List.nodup_cons.mp hnd).1
      have hcongr : l.filter q = l.filter p :=
        List.filter_congr (fun j hj => (hpq j (List.mem_cons_of_mem i hj)
          (fun he => hnotin (he ▸ hj))).symm)
      simp only [List.filter_cons, hp, hq, hcongr]
      simp
    · have hai : a ≠ i := by
        intro he'
        subst he'
        exact (List.nodup_cons.mp hnd).1 hi'
      have ha : p a = q a := hpq a (List.mem_cons_self a l) hai
      have hrec := filter_flip_len p q i l (List.nodup_cons.mp hnd).2 hi'
        (fun j hj hji => hpq j (List.mem_cons_of_mem a hj) hji) hp hq
      simp only [List.filter_cons, ← ha]
      cases hpa : p a <;> simp [hrec]

/-- Marking an empty cell of a 9-cell board decreases the number of
empty positions by exactly one. -/
theorem emptiesCount_set (cells : Cells) (i : Nat) (m : Mark) (h9 : cells.length = 9)
    (hi : i < 9) (he : cells.getD i none = none) :
    emptiesCount (cells.set i (some m)) + 1 = emptiesCount cells := by
  unfold emptiesCount
  refine filter_flip_len (fun k => decide (cells.getD k none = none))
    (fun k => decide ((cells.set i (some m)).getD k none = none)) i (List.range 9)
    (List.nodup_range 9) (List.mem_range.mpr hi) ?_ (by simpa using he) ?_
  · intro j hj hji
    show decide (cells.getD j none = none) =
      decide ((cells.set i (some m)).getD j none = none)
    rw [getD_set_ne cells i j (some m) (fun e => hji e.symm)]
  · show decide ((cells.set i (some m)).getD i none = none) = false
    rw [getD_set_self cells i (some m) (by omega)]
    rfl

/-- The safety predicate does not depend on the fuel once the fuel covers
the number of empty cells. -/
theorem oSafe_win (fuel : Nat) (flag : Bool) (cells : Cells) (m : Mark)
    (hw : AI._check_winner cells = WRes.win m) :
    oSafe fuel flag cells = decide (m = Mark.O) := by
  cases fuel <;> simp [oSafe, hw]

theorem oSafe_draw (fuel : Nat) (flag : Bool) (cells : Cells)
    (hw : AI._check_winner cells = WRes.draw) :
    oSafe fuel flag cells = true := by
  cases fuel <;> simp [oSafe, hw]

theorem oSafe_nores_zero (flag : Bool) (cells : Cells)
    (hw : AI._check_winner cells = WRes.nores) :
    oSafe 0 flag cells = false := by
  simp [oSafe, hw]

theorem oSafe_nores_succ (fuel' : Nat) (flag : Bool) (cells : Cells)
    (hw : AI._check_winner cells = WRes.nores) :
    oSafe (fuel' + 1) flag cells =
      (if flag then
        (List.range 9).any fun i =>
          if cells.getD i none = none then oSafe fuel' false (cells.set i (some Mark.O))
          else false
      else
        (List.range 9).all fun i =>
          if cells.getD i none = none then oSafe fuel' true (cells.set i (some Mark.X))
          else true) := by
  simp [oSafe, hw]

theorem oSafe_irrel : ∀ (n f g : Nat) (flag : Bool) (cells : Cells),
    cells.length = 9 → emptiesCount cells = n → n ≤ f → n ≤ g →
    oSafe f flag cells = oSafe g flag cells := by
  intro n
  induction n with
  | zero =>
    intro f g flag cells h9 hn hf hg
    cases hw : AI._check_winner cells with
    | win m => rw [oSafe_win f flag cells m hw, oSafe_win g flag cells m hw]
    | draw => rw [oSafe_draw f flag cells hw, oSafe_draw g flag cells hw]
    | nores => exact absurd hw (full_no_nores cells h9 hn)
  | succ n' ih =>
    intro f g flag cells h9 hn hf hg
    cases hw : AI._check_winner cells with
    | win m => rw [oSafe_win f flag cells m hw, oSafe_win g flag cells m hw]
    | draw => rw [oSafe_draw f flag cells hw, oSafe_draw g flag cells hw]
    | nores =>
      obtain ⟨f1, rfl⟩ : ∃ f1, f = f1 + 1 := ⟨f - 1, by omega⟩
      obtain ⟨g1, rfl⟩ : ∃ g1, g = g1 + 1 := ⟨g - 1, by omega⟩
      rw [oSafe_nores_succ f1 flag cells hw, oSafe_nores_succ g1 flag cells hw]
      cases flag
      · rw [if_neg Bool.false_ne_true, if_neg Bool.false_ne_true]
        refine list_all_congr _ _ (List.range 9) (fun a ha => ?_)
        by_cases hae : cells.getD a none = none
        · simp only [if_pos hae]
          have hc := emptiesCount_set cells a Mark.X h9 (List.mem_range.mp ha) hae
          exact ih f1 g1 true (cells.set a (some Mark.X)) (by simp [h9])
            (by omega) (by omega) (by omega)
        · simp only [if_neg hae]
      · rw [if_pos rfl, if_pos rfl]
        refine list_any_congr _ _ (List.range 9) (fun a ha => ?_)
        by_cases hae : cells.getD a none = none
        · simp only [if_pos hae]
          have hc := emptiesCount_set cells a Mark.O h9 (List.mem_range.mp ha) hae
          exact ih f1 g1 false (cells.set a (some Mark.O)) (by simp [h9])
            (by omega) (by omega) (by omega)
        · simp only [if_neg hae]

/-- Lower bounds against the maximizing reference fold decompose as a
bound against the seed or against some empty-cell child. -/
theorem le_sfMax_iff (t : Cells → Int) (mark : Mark) (board : Cells) :
    ∀ (idxs : List Nat) (acc c : Int),
      c ≤ sfMax t mark board idxs acc ↔
        c ≤ acc ∨ ∃ i ∈ idxs, board.getD i none = none ∧ c ≤ t (board.set i (some mark))
  | [], acc, c => by simp [sfMax]
  | i :: rest, acc, c => by
    simp only [sfMax]
    by_cases hemp : board.getD i none = none
    · simp only [if_pos hemp]
      rw [le_sfMax_iff t mark board rest (max acc (t (board.set i (some mark)))) c]
      constructor
      · rintro (h | ⟨j, hj, hje, hjt⟩)
        · rcases le_max_iff.mp h with h' | h'
          · exact Or.inl h'
          · exact Or.inr ⟨i, List.mem_cons_self i rest, hemp, h'⟩
        · exact Or.inr ⟨j, List.mem_cons_of_mem i hj, hje, hjt⟩
      · rintro (h | ⟨j, hj, hje, hjt⟩)
        · exact Or.inl (le_max_iff.mpr (Or.inl h))
        · rcases List.mem_cons.mp hj with rfl | hj'
          · exact Or.inl (le_max_iff.mpr (Or.inr hjt))
          · exact Or.inr ⟨j, hj', hje, hjt⟩
    · simp only [if_neg hemp]
      rw [le_sfMax_iff t mark board rest acc c]
      constructor
      · rintro (h | ⟨j, hj, hje, hjt⟩)
        · exact Or.inl h
        · exact Or.inr ⟨j, List.mem_cons_of_mem i hj, hje, hjt⟩
      · rintro (h | ⟨j, hj, hje, hjt⟩)
        · exact Or.inl h
        · rcases List.mem_cons.mp hj with rfl | hj'
          · exact absurd hje hemp
          · exact Or.inr ⟨j, hj', hje, hjt⟩

/-- Lower bounds against the minimizing reference fold decompose as a
bound against the seed and against every empty-cell child. -/
theorem le_sfMin_iff (t : Cells → Int) (mark : Mark) (board : Cells) :
    ∀ (idxs : List Nat) (acc c : Int),
      c ≤ sfMin t mark board idxs acc ↔
        c ≤ acc ∧ ∀ i ∈ idxs, board.getD i none = none → c ≤ t (board.set i (some mark))
  | [], acc, c => by simp [sfMin]
  | i :: rest, acc, c => by
    simp only [sfMin]
    by_cases hemp : board.getD i none = none
    · simp only [if_pos hemp]
      rw [le_sfMin_iff t mark board rest (min acc (t (board.set i (some mark)))) c]
      constructor
      · rintro ⟨h1, hall⟩
        rcases le_min_iff.mp h1 with ⟨h1a, h1b⟩
        refine ⟨h1a, fun j hj hje => ?_⟩
        rcases List.mem_cons.mp hj with rfl | hj'
        · exact h1b
        · exact hall j hj' hje
      · rintro ⟨h1, hall⟩
        exact ⟨le_min_iff.mpr ⟨h1, hall i (List.mem_cons_self i rest) hemp⟩,
          fun j hj hje => hall j (List.mem_cons_of_mem i hj) hje⟩
    · simp only [if_neg hemp]
      rw [le_sfMin_iff t mark board rest acc c]
      constructor
      · rintro ⟨h1, hall⟩
        refine ⟨h1, fun j hj hje => ?_⟩
        rcases List.mem_cons.mp hj with rfl | hj'
        · exact absurd hje hemp
        · exact hall j hj' hje
      · rintro ⟨h1, hall⟩
        exact ⟨h1, fun j hj hje => hall j (List.mem_cons_of_mem i hj) hje⟩

/-- A safe position is never an X win. -/
theorem oSafe_no_xwin (f : Nat) (flag : Bool) (cells : Cells)
    (h : oSafe f flag cells = true) : AI._check_winner cells ≠ WRes.win Mark.X := by
  intro hw
  rw [oSafe_win f flag cells Mark.X hw] at h
  simp at h

theorem sign_iff_win (fuel : Nat) (b : Cells) (m : Bool) (d : Nat) (mk : Mark)
    (hw : AI._check_winner b = WRes.win mk) (hd : d ≤ 9) :
    ((0 : Int) ≤ specVal Mark.O Mark.X fuel b m d 9 ↔ oSafe fuel m b = true) := by
  have hval : specVal Mark.O Mark.X fuel b m d 9 =
      if mk = Mark.O then (100 : Int) - (d : Int) else (-100 : Int) + (d : Int) := by
    cases fuel <;> cases mk <;> simp [specVal, hw]
  rw [hval, oSafe_win fuel m b mk hw]
  have hd9 : (d : Int) ≤ 9 := by exact_mod_cast hd
  cases mk
  · rw [if_neg (by decide : ¬ Mark.X = Mark.O)]
    constructor
    · intro h
      exact absurd h (by omega)
    · intro h
      exact absurd h (by decide)
  · rw [if_pos rfl]
    constructor
    · intro h
      decide
    · intro h
      omega

/-- The sign of the unpruned minimax value (engine O maximizing against
X) coincides with the game-theoretic safety predicate: the engine's
position value is non-negative exactly when O can still force at least a
draw. -/
theorem sign_iff : ∀ (fuel : Nat) (b : Cells) (m : Bool) (d : Nat),
    b.length = 9 → emptiesCount b ≤ fuel → d + emptiesCount b ≤ 9 →
    ((0 : Int) ≤ specVal Mark.O Mark.X fuel b m d 9 ↔ oSafe fuel m b = true) := by
  intro fuel
  induction fuel with
  | zero =>
    intro b m d h9 hf hd
    cases hw : AI._check_winner b with
    | win mk => exact sign_iff_win 0 b m d mk hw (by omega)
    | draw =>
      have hval : specVal Mark.O Mark.X 0 b m d 9 = 0 := by
        simp [specVal, hw]
      rw [hval, oSafe_draw 0 m b hw]
      simp
    | nores => exact absurd hw (full_no_nores b h9 (by omega))
  | succ fuel' ih =>
    intro b m d h9 hf hd
    cases hw : AI._check_winner b with
    | win mk => exact sign_iff_win (fuel' + 1) b m d mk hw (by omega)
    | draw =>
      have hval : specVal Mark.O Mark.X (fuel' + 1) b m d 9 = 0 := by
        simp [specVal, hw]
      rw [hval, oSafe_draw (fuel' + 1) m b hw]
      simp
    | nores =>
      have hpos : 1 ≤ emptiesCount b := emptiesCount_pos b h9 hw
      have hval : specVal Mark.O Mark.X (fuel' + 1) b m d 9 =
          (if m then
            sfMax (fun bb => specVal Mark.O Mark.X fuel' bb false (d + 1) 9) Mark.O b
              (List.range 9) (-9999)
          else
            sfMin (fun bb => specVal Mark.O Mark.X fuel' bb true (d + 1) 9) Mark.X b
              (List.range 9) (9999)) := by
        simp [specVal, hw, show ¬ (9 ≤ d) from by omega]
      rw [hval, oSafe_nores_succ fuel' m b hw]
      cases m
      · rw [if_neg Bool.false_ne_true, if_neg Bool.false_ne_true]
        rw [le_sfMin_iff, List.all_eq_true]
        constructor
        · rintro ⟨h1, hall⟩
          intro i hi
          by_cases hie : b.getD i none = none
          · rw [if_pos hie]
            have hcnt := emptiesCount_set b i Mark.X h9 (List.mem_range.mp hi) hie
            exact (ih (b.set i (some Mark.X)) true (d + 1) (by simp [h9])
              (by omega) (by omega)).mp (hall i hi hie)
          · rw [if_neg hie]
        · intro hall
          refine ⟨by norm_num, fun i hi hie => ?_⟩
          have hthis := hall i hi
          rw [if_pos hie] at hthis
          have hcnt := emptiesCount_set b i Mark.X h9 (List.mem_range.mp hi) hie
          exact (ih (b.set i (some Mark.X)) true (d + 1) (by simp [h9])
            (by omega) (by omega)).mpr hthis
      · rw [if_pos rfl, if_pos rfl]
        rw [le_sfMax_iff, List.any_eq_true]
        constructor
        · rintro (h | ⟨i, hi, hie, hit⟩)
          · exact absurd h (by norm_num)
          · refine ⟨i, hi, ?_⟩
            rw [if_pos hie]
            have hcnt := emptiesCount_set b i Mark.O h9 (List.mem_range.mp hi) hie
            exact (ih (b.set i (some Mark.O)) false (d + 1) (by simp [h9])
              (by omega) (by omega)).mp hit
        · rintro ⟨i, hi, hST⟩
          by_cases hie : b.getD i none = none
          · rw [if_pos hie] at hST
            have hcnt := emptiesCount_set b i Mark.O h9 (List.mem_range.mp hi) hie
            exact Or.inr ⟨i, hi, hie, (ih (b.set i (some Mark.O)) false (d + 1)
              (by simp [h9]) (by omega) (by omega)).mpr hST⟩
          · rw [if_neg hie] at hST
            exact absurd hST (by simp)

theorem checkStrat_sound : ∀ (fuel : Nat) (cells : Cells) (st : OStrat),
    checkStrat fuel cells st = true →
    AI._check_winner cells = WRes.nores →
    oSafe (2 * fuel) false cells = true := by
  intro fuel
  induction fuel with
  | zero =>
    intro cells st h hw
    simp [checkStrat] at h
  | succ fuel ih =>
    intro cells st h hw
    obtain ⟨ch⟩ := st
    simp only [checkStrat] at h
    rw [List.all_eq_true] at h
    have h2 : 2 * (fuel + 1) = (2 * fuel + 1) + 1 := by ring
    rw [h2, oSafe_nores_succ (2 * fuel + 1) false cells hw,
      if_neg Bool.false_ne_true, List.all_eq_true]
    intro i hi
    by_cases hie : cells.getD i none = none
    · rw [if_pos hie]
      have hx := h i hi
      rw [if_pos hie] at hx
      cases hw1 : AI._check_winner (cells.set i (some Mark.X)) with
      | win m =>
        rw [hw1] at hx
        simp only [decide_eq_true_eq] at hx
        rw [oSafe_win (2 * fuel + 1) true (cells.set i (some Mark.X)) m hw1]
        cases m
        · exact absurd rfl hx
        · decide
      | draw =>
        exact oSafe_draw (2 * fuel + 1) true (cells.set i (some Mark.X)) hw1
      | nores =>
        rw [hw1] at hx
        simp only [] at hx
        cases hr : findResp ch i with
        | none =>
          rw [hr] at hx
          exact absurd hx (by simp)
        | some js =>
          obtain ⟨j, sub⟩ := js
          rw [hr] at hx
          simp only [] at hx
          by_cases hj : j < 9 ∧ (cells.set i (some Mark.X)).getD j none = none
          · rw [if_pos hj] at hx
            rw [oSafe_nores_succ (2 * fuel) true (cells.set i (some Mark.X)) hw1,
              if_pos rfl, List.any_eq_true]
            refine ⟨j, List.mem_range.mpr hj.1, ?_⟩
            rw [if_pos hj.2]
            cases hw2 : AI._check_winner
                ((cells.set i (some Mark.X)).set j (some Mark.O)) with
            | win m =>
              rw [hw2] at hx
              simp only [decide_eq_true_eq] at hx
              rw [oSafe_win (2 * fuel) false
                ((cells.set i (some Mark.X)).set j (some Mark.O)) m hw2]
              cases m
              · exact absurd rfl hx
              · decide
            | draw =>
              exact oSafe_draw (2 * fuel) false
                ((cells.set i (some Mark.X)).set j (some Mark.O)) hw2
            | nores =>
              rw [hw2] at hx
              exact ih ((cells.set i (some Mark.X)).set j (some Mark.O)) sub hx hw2
          · rw [if_neg hj] at hx
            exact absurd hx (by simp)
    · rw [if_neg hie]

theorem place_true (cells : Cells) (idx : Int) (mark : Mark)
    (h : (Board.place cells idx mark).2 = true) :
    0 ≤ idx ∧ idx < 9 ∧ cells.getD idx.toNat none = none ∧
      (Board.place cells idx mark).1 = cells.set idx.toNat (some mark) := by
  by_cases hc : 0 ≤ idx ∧ idx < 9 ∧ cells.getD idx.toNat none = none
  · refine ⟨hc.1, hc.2.1, hc.2.2, ?_⟩
    unfold Board.place
    rw [if_pos hc]
  · unfold Board.place at h
    rw [if_neg hc] at h
    exact absurd h (by simp)

theorem best_move_imp (cells : Cells) (h9 : cells.length = 9)
    (hn : AI._check_winner cells = WRes.nores) :
    AI.best_move Mark.O Mark.X Difficulty.Impossible false (fun _ => 0) cells =
      (specRootFold (fun b => specVal Mark.O Mark.X (9 - 1) b false 1 9) Mark.O cells
        (List.range 9) ((-9999 : Int), none)).2 := by
  have hav := available_ne cells h9 hn
  have hroot := minimax_root Mark.O Mark.X (by decide) cells 9 h9 hn (by norm_num)
    (le_refl 9)
  simp only [AI.best_move, hav]
  rw [if_neg Bool.false_ne_true, hroot]

theorem engineTurn_eq (cells : Cells) (x : Nat) :
    engineTurn cells x =
      if AI._check_winner cells ≠ WRes.nores then cells
      else if (Board.place cells (x : Int) Mark.X).2 then
        (if AI._check_winner (Board.place cells (x : Int) Mark.X).1 ≠ WRes.nores then
          (Board.place cells (x : Int) Mark.X).1
        else
          match AI.best_move Mark.O Mark.X Difficulty.Impossible false (fun _ => 0)
              (Board.place cells (x : Int) Mark.X).1 with
          | some j =>
            (Board.place (Board.place cells (x : Int) Mark.X).1 (j : Int) Mark.O).1
          | none => (Board.place cells (x : Int) Mark.X).1)
      else cells := rfl

theorem engineTurn_inv (cells : Cells) (x : Nat) (h : C2Inv cells) :
    C2Inv (engineTurn cells x) := by
  obtain ⟨h9, hnx, hsafe⟩ := h
  rw [engineTurn_eq]
  by_cases hterm : AI._check_winner cells ≠ WRes.nores
  · rw [if_pos hterm]
    exact ⟨h9, hnx, hsafe⟩
  · rw [if_neg hterm]
    have hn : AI._check_winner cells = WRes.nores := not_not.mp hterm
    cases hpl : (Board.place cells (x : Int) Mark.X).2 with
    | false =>
      rw [if_neg Bool.false_ne_true]
      exact ⟨h9, hnx, hsafe⟩
    | true =>
      rw [if_pos rfl]
      obtain ⟨hx0, hx9i, hxe0, hc1⟩ := place_true cells (x : Int) Mark.X hpl
      have hxn : ((x : Int)).toNat = x := by simp
      have hx9 : x < 9 := by exact_mod_cast hx9i
      rw [hxn] at hxe0 hc1
      rw [hc1]
      have h91 : (cells.set x (some Mark.X)).length = 9 := by simp [h9]
      have hE1 := emptiesCount_set cells x Mark.X h9 hx9 hxe0
      have hsafe0 := hsafe hn
      rw [← hE1, oSafe_nores_succ (emptiesCount (cells.set x (some Mark.X))) false cells hn,
        if_neg Bool.false_ne_true, List.all_eq_true] at hsafe0
      have hsafe1 : oSafe (emptiesCount (cells.set x (some Mark.X))) true
          (cells.set x (some Mark.X)) = true := by
        have hh := hsafe0 x (List.mem_range.mpr hx9)
        rw [if_pos hxe0] at hh
        exact hh
      by_cases hterm1 : AI._check_winner (cells.set x (some Mark.X)) ≠ WRes.nores
      · rw [if_pos hterm1]
        exact ⟨h91, oSafe_no_xwin _ true _ hsafe1, fun hnn => absurd hnn hterm1⟩
      · rw [if_neg hterm1]
        have hn1 : AI._check_winner (cells.set x (some Mark.X)) = WRes.nores :=
          not_not.mp hterm1
        have hEpos : 1 ≤ emptiesCount (cells.set x (some Mark.X)) :=
          emptiesCount_pos _ h91 hn1
        have hE9 : emptiesCount (cells.set x (some Mark.X)) ≤ 9 := emptiesCount_le9 _
        obtain ⟨E2, hE2⟩ : ∃ E2, emptiesCount (cells.set x (some Mark.X)) = E2 + 1 :=
          ⟨emptiesCount (cells.set x (some Mark.X)) - 1, by omega⟩
        rw [hE2, oSafe_nores_succ E2 true (cells.set x (some Mark.X)) hn1,
          if_pos rfl, List.any_eq_true] at hsafe1
        obtain ⟨i, hi, hsafe2⟩ := hsafe1
        by_cases hiemp : (cells.set x (some Mark.X)).getD i none = none
        · rw [if_pos hiemp] at hsafe2
          have hEi := emptiesCount_set (cells.set x (some Mark.X)) i Mark.O h91
            (List.mem_range.mp hi) hiemp
          have hs8 : oSafe (9 - 1) false
              ((cells.set x (some Mark.X)).set i (some Mark.O)) = true := by
            have heq := oSafe_irrel E2 (9 - 1) E2 false
              ((cells.set x (some Mark.X)).set i (some Mark.O)) (by simp [h91])
              (by omega) (by omega) (le_refl E2)
            rw [heq]
            exact hsafe2
          have hchild : (0 : Int) ≤ specVal Mark.O Mark.X (9 - 1)
              ((cells.set x (some Mark.X)).set i (some Mark.O)) false 1 9 :=
            (sign_iff (9 - 1) ((cells.set x (some Mark.X)).set i (some Mark.O)) false 1
              (by simp [h91]) (by omega) (by omega)).mpr hs8
          obtain ⟨s1, s2, s3⟩ := specRootFold_spec
            (fun b => specVal Mark.O Mark.X (9 - 1) b false 1 9) Mark.O
            (cells.set x (some Mark.X)) (List.range 9) ((-9999 : Int), none)
          have hroot0 : (0 : Int) ≤ (specRootFold
              (fun b => specVal Mark.O Mark.X (9 - 1) b false 1 9) Mark.O
              (cells.set x (some Mark.X)) (List.range 9) ((-9999 : Int), none)).1 :=
            le_trans hchild (s2 i hi hiemp)
          obtain ⟨j, hj, hjmem, hje, hjval⟩ := specRootFold_isSome Mark.O Mark.X
            (by decide) (cells.set x (some Mark.X)) 9 h91 hn1 (by norm_num) (le_refl 9)
          have hbm := best_move_imp (cells.set x (some Mark.X)) h91 hn1
          rw [hbm, hj]
          simp only []
          have hj9 : j < 9 := List.mem_range.mp hjmem
          have hcond : 0 ≤ (j : Int) ∧ (j : Int) < 9 ∧
              (cells.set x (some Mark.X)).getD ((j : Int)).toNat none = none :=
            ⟨Int.natCast_nonneg j, by exact_mod_cast hj9, by simpa using hje⟩
          have hplc : (Board.place (cells.set x (some Mark.X)) (j : Int) Mark.O).1 =
              (cells.set x (some Mark.X)).set j (some Mark.O) := by
            unfold Board.place
            rw [if_pos hcond]
            simp
          rw [hplc]
          have hEj := emptiesCount_set (cells.set x (some Mark.X)) j Mark.O h91 hj9 hje
          have hval2 : (0 : Int) ≤ specVal Mark.O Mark.X (9 - 1)
              ((cells.set x (some Mark.X)).set j (some Mark.O)) false 1 9 := by
            rw [← hjval]
            exact hroot0
          have h92 : ((cells.set x (some Mark.X)).set j (some Mark.O)).length = 9 := by
            simp [h91]
          have hs8c2 : oSafe (9 - 1) false
              ((cells.set x (some Mark.X)).set j (some Mark.O)) = true :=
            (sign_iff (9 - 1) ((cells.set x (some Mark.X)).set j (some Mark.O)) false 1
              h92 (by omega) (by omega)).mp hval2
          refine ⟨h92, oSafe_no_xwin _ false _ hs8c2, fun hn2 => ?_⟩
          have heq2 := oSafe_irrel E2
            (emptiesCount ((cells.set x (some Mark.X)).set j (some Mark.O))) (9 - 1)
            false ((cells.set x (some Mark.X)).set j (some Mark.O)) h92 (by omega)
            (by omega) (by omega)
          rw [heq2]
          exact hs8c2
        · rw [if_neg hiemp] at hsafe2
          exact absurd hsafe2 (by simp)

theorem foldl_inv : ∀ (l : List Nat) (b : Cells), C2Inv b → C2Inv (l.foldl engineTurn b)
  | [], _, h => h
  | a :: l, b, h => foldl_inv l (engineTurn b a) (engineTurn_inv b a h)

set_option maxRecDepth 100000 in
set_option maxHeartbeats 4000000 in
theorem emptyBoard_safe : oSafe (emptiesCount emptyBoard) false emptyBoard = true := by
  have hcert : checkStrat 5 emptyBoard oStratTable = true := by decide!
  have h10 := checkStrat_sound 5 emptyBoard oStratTable hcert (by decide)
  have heq := oSafe_irrel 9 (2 * 5) (emptiesCount emptyBoard) false emptyBoard
    (by decide) (by decide) (by norm_num) (by decide)
  rw [← heq]
  exact h10

/-- Claim C2: playing second at Impossible difficulty, the engine never
loses: whatever sequence of cells the opponent (X) tries from the empty
board — illegal attempts rejected by `place`, each legal move answered
by `best_move` with full-depth minimax — the resulting board never has
`winner()` reporting a completed triple of the opponent's mark. -/
theorem claim_C2 (xs : List Nat) :
    (Board.winner (engineGame xs)).1 ≠ WRes.win Mark.X := by
  have hinv : C2Inv (engineGame xs) :=
    foldl_inv xs emptyBoard ⟨by decide, by decide, fun _ => emptyBoard_safe⟩
  rw [← check_eq_winner_fst]
  exact hinv.2.1
